import Mathlib

/-!
# Verification of the AerolineasRusticas distributed datastore

Shallow embedding, in Lean 4, of the core coordination and storage logic of
the `cassandra_node` crate, together with theorems settling the frozen claims
about it.  Every definition mirrors a function of the Rust source; the file
paths and symbols are cited next to each definition.

Conventions used throughout:
* Rust `usize`/`u64`/`u16` become `Nat`, with explicit `% 2^w` where the source
  truncates (e.g. `as u16` casts); `i64`/`i32` become `Int` with explicit range
  checks where the source parses `i32`.
* Fallible Rust code (`Result`, `io::Result`) becomes `Except` / `Option`.
* `HashMap` becomes an association list (`List (κ × α)`); `BTreeMap` becomes an
  association list kept sorted by the insertion routine, exactly as the source
  relies on it.
* Byte strings (`String` in Rust, serialized through its UTF-8 bytes) are
  modelled as `List Nat` of byte values.
-/

namespace AerolineasRusticas

/-! ## Consistency levels

From `src/common/src/frame/messages/consistency_level.rs` and
`src/cassandra_node/src/consistency.rs`. -/

/-- The native-protocol consistency levels
(`common/src/frame/messages/consistency_level.rs`, enum `ConsistencyLevel`). -/
inductive ConsistencyLevel where
  | Any | One | Two | Three | Quorum | All
  | LocalQuorum | EachQuorum | Serial | LocalSerial | LocalOne
deriving DecidableEq, Repr

/-- The coordinator-side consistency levels
(`cassandra_node/src/consistency.rs`, enum `Consistency`). -/
inductive Consistency where
  | One | Quorum | All
deriving DecidableEq, Repr

namespace Consistency

/-- `Consistency::from_consistency_level` (`consistency.rs`, lines 31-38):
every native level other than `One`, `Quorum`, `All` falls into the
catch-all arm and becomes `Consistency::One`. -/
def from_consistency_level : ConsistencyLevel → Consistency
  | ConsistencyLevel.One => Consistency.One
  | ConsistencyLevel.Quorum => Consistency.Quorum
  | ConsistencyLevel.All => Consistency.All
  | _ => Consistency.One

/-- `Consistency::required_nodes` (`consistency.rs`, lines 47-53).
Rust `usize` division floors, as does `Nat` division. -/
def required_nodes : Consistency → Nat → Nat
  | Consistency.One, _ => 1
  | Consistency.Quorum, n => n / 2 + 1
  | Consistency.All, n => n

end Consistency

/-- The body of `check_consistency_level` strips NUL characters from each
successful response before storing it (`consistency.rs`, lines 88-94). -/
def stripNul (s : String) : String :=
  String.mk (s.data.filter (fun c => c ≠ '\x00'))

/-- One message on the coordinator's response channel: a worker sends
`Ok(body)` or `Err(reason)`. -/
abbrev RespMsg := Except String String

/-- The collection loop of `Consistency::check_consistency_level`
(`consistency.rs`, lines 77-107).  The channel is modelled as the finite list
of messages it delivers before all senders are dropped; `recv` on the
exhausted list corresponds to the `Err(_) => break` arm. -/
def cclLoop (required R : Nat) :
    List RespMsg → Nat → Nat → List String → List String
  | [], _, _, responses => responses
  | m :: rest, okCount, total, responses =>
    if okCount < required && total < R then
      match m with
      | Except.ok r => cclLoop required R rest (okCount + 1) (total + 1) (responses ++ [stripNul r])
      | Except.error _ => cclLoop required R rest okCount (total + 1) responses
    else responses

/-- `Consistency::check_consistency_level` (`consistency.rs`, lines 72-119):
run the collection loop, then succeed iff exactly `required` responses were
accumulated. -/
def check_consistency_level (c : Consistency) (msgs : List RespMsg) (R : Nat) :
    Except String (List String) :=
  if (cclLoop (c.required_nodes R) R msgs 0 0 []).length = c.required_nodes R
  then Except.ok (cclLoop (c.required_nodes R) R msgs 0 0 [])
  else Except.error "No se alcanzó el consistency level"

/-- Number of successful messages in a channel trace. -/
def countOk (msgs : List RespMsg) : Nat :=
  msgs.countP (fun m => match m with | Except.ok _ => true | Except.error _ => false)

theorem countOk_cons_ok (r : String) (rest : List RespMsg) :
    countOk (Except.ok r :: rest) = countOk rest + 1 := by
  simp [countOk, List.countP_cons]

theorem countOk_cons_err (e : String) (rest : List RespMsg) :
    countOk (Except.error e :: rest) = countOk rest := by
  simp [countOk, List.countP_cons]

/-- Invariant-carrying characterisation of the collection loop: starting from
`okCount` accumulated successes (`responses.length = okCount ≤ required`) and
with exactly `R - total` messages still to come, the loop ends with
`min required (okCount + countOk msgs)` accumulated responses. -/
theorem cclLoop_length (required R : Nat) (msgs : List RespMsg)
    (okCount total : Nat) (responses : List String)
    (hlen : total + msgs.length = R)
    (hresp : responses.length = okCount)
    (hok : okCount ≤ required) :
    (cclLoop required R msgs okCount total responses).length
      = min required (okCount + countOk msgs) := by
  induction msgs generalizing okCount total responses with
  | nil =>
    simp only [cclLoop, countOk, List.countP_nil, Nat.add_zero, hresp]
    omega
  | cons m rest ih =>
    rcases Nat.lt_or_ge okCount required with hlt | hge
    · have htot : total < R := by simp only [List.length_cons] at hlen; omega
      have hcond : (decide (okCount < required) && decide (total < R)) = true := by
        simp [hlt, htot]
      cases m with
      | ok r =>
        simp only [cclLoop]
        rw [if_pos hcond]
        rw [ih (okCount + 1) (total + 1) (responses ++ [stripNul r])
          (by simp only [List.length_cons] at hlen; omega) (by simp [hresp]) (by omega)]
        rw [countOk_cons_ok]
        omega
      | error e =>
        simp only [cclLoop]
        rw [if_pos hcond]
        rw [ih okCount (total + 1) responses
          (by simp only [List.length_cons] at hlen; omega) hresp hok]
        rw [countOk_cons_err]
    · have heq : okCount = required := le_antisymm hok hge
      have hcond : ¬((decide (okCount < required) && decide (total < R)) = true) := by
        simp; omega
      simp only [cclLoop]
      rw [if_neg hcond, hresp, heq]
      omega

/-- The collection loop over a full channel trace of `R` worker messages
accumulates `min required (countOk msgs)` responses. -/
theorem cclLoop_length_full (required R : Nat) (msgs : List RespMsg)
    (hlen : msgs.length = R) :
    (cclLoop required R msgs 0 0 []).length = min required (countOk msgs) := by
  have h := cclLoop_length required R msgs 0 0 [] (by omega) rfl (Nat.zero_le _)
  simpa using h

/-- `check_consistency_level` succeeds on a full trace of `R` worker messages
iff the trace carries at least `required_nodes` successes. -/
theorem check_consistency_level_ok_iff (c : Consistency) (msgs : List RespMsg)
    (R : Nat) (hlen : msgs.length = R) :
    (∃ rs, check_consistency_level c msgs R = Except.ok rs)
      ↔ c.required_nodes R ≤ countOk msgs := by
  unfold check_consistency_level
  rw [cclLoop_length_full _ _ _ hlen]
  constructor
  · rintro ⟨rs, hrs⟩
    by_cases h : min (c.required_nodes R) (countOk msgs) = c.required_nodes R
    · omega
    · simp [h] at hrs
  · intro h
    rw [if_pos (by omega)]
    exact ⟨_, rfl⟩

/-- On a full trace of `R` worker messages with fewer than `required_nodes`
successes, `check_consistency_level` returns the error that the coordinator
maps to `UnavailableException`. -/
theorem check_consistency_level_err (c : Consistency) (msgs : List RespMsg)
    (R : Nat) (hlen : msgs.length = R)
    (hlt : countOk msgs < c.required_nodes R) :
    check_consistency_level c msgs R
      = Except.error "No se alcanzó el consistency level" := by
  unfold check_consistency_level
  rw [cclLoop_length_full _ _ _ hlen]
  rw [if_neg (by omega)]

/-- C1: for every statement dispatched to a replica set of size `R`, the
coordinator's collection loop (`Consistency::check_consistency_level` over the
full trace of the `R` worker responses) returns success exactly when it has
accumulated `required_nodes` successful responses — `⌊R/2⌋ + 1` at QUORUM —
and returns the error mapped to `UnavailableException` when the total of
successful and failed responses reaches `R` without that many successes; the
required-replica counts are `1` for ONE, `⌊R/2⌋ + 1` for QUORUM and `R` for
ALL. -/
theorem claim_c1_consistency_collection (c : Consistency) (R : Nat)
    (msgs : List RespMsg) (hlen : msgs.length = R) :
    ((∃ rs, check_consistency_level c msgs R = Except.ok rs)
        ↔ c.required_nodes R ≤ countOk msgs)
    ∧ (countOk msgs < c.required_nodes R →
        check_consistency_level c msgs R
          = Except.error "No se alcanzó el consistency level")
    ∧ Consistency.required_nodes Consistency.One R = 1
    ∧ Consistency.required_nodes Consistency.Quorum R = R / 2 + 1
    ∧ Consistency.required_nodes Consistency.All R = R :=
  ⟨check_consistency_level_ok_iff c msgs R hlen,
   check_consistency_level_err c msgs R hlen, rfl, rfl, rfl⟩

/-- Witness for C1: a QUORUM collection over three replicas with two successes
and one failure succeeds. -/
theorem claim_c1_consistency_collection_witness :
    ∃ rs, check_consistency_level Consistency.Quorum
      [Except.ok "a", Except.error "e", Except.ok "b"] 3 = Except.ok rs :=
  (claim_c1_consistency_collection Consistency.Quorum 3
      [Except.ok "a", Except.error "e", Except.ok "b"] rfl).1.mpr (by decide)

/-- C10: every client consistency level other than ONE, QUORUM and ALL (for
example TWO, THREE or LOCAL_QUORUM) is silently mapped to `Consistency::One`
by `from_consistency_level`, so its required-replica count is `1` and a single
successful replica response makes the collection succeed. -/
theorem claim_c10_unknown_levels_become_one (cl : ConsistencyLevel)
    (h1 : cl ≠ ConsistencyLevel.One) (h2 : cl ≠ ConsistencyLevel.Quorum)
    (h3 : cl ≠ ConsistencyLevel.All) :
    Consistency.from_consistency_level cl = Consistency.One
    ∧ (∀ R, (Consistency.from_consistency_level cl).required_nodes R = 1)
    ∧ (∀ R msgs, msgs.length = R → 1 ≤ countOk msgs →
        ∃ rs, check_consistency_level
          (Consistency.from_consistency_level cl) msgs R = Except.ok rs) := by
  have hone : Consistency.from_consistency_level cl = Consistency.One := by
    cases cl <;> simp_all [Consistency.from_consistency_level]
  refine ⟨hone, fun R => by rw [hone]; rfl, fun R msgs hlen hok => ?_⟩
  rw [hone]
  exact (check_consistency_level_ok_iff Consistency.One msgs R hlen).mpr hok

/-- Witness for C10: a TWO-level request over three replicas succeeds after a
single successful response. -/
theorem claim_c10_unknown_levels_become_one_witness :
    Consistency.from_consistency_level ConsistencyLevel.Two = Consistency.One
    ∧ ∃ rs, check_consistency_level
        (Consistency.from_consistency_level ConsistencyLevel.Two)
        [Except.error "down", Except.error "down", Except.ok "row"] 3
        = Except.ok rs := by
  have h := claim_c10_unknown_levels_become_one ConsistencyLevel.Two
    (by decide) (by decide) (by decide)
  exact ⟨h.1, h.2.2 3 [Except.error "down", Except.error "down", Except.ok "row"]
    rfl (by decide)⟩

/-! ## Consistent hash ring and Simple replication strategy

From `src/cassandra_node/src/consistent_hashing.rs` and
`src/cassandra_node/src/replication_strategy.rs`.  The 64-bit hash of the
partition-key vector (`ConsistentHash::hash_vector`, a `DefaultHasher` over
the formatted vector) is kept as an abstract parameter `hashed : Nat` with
`hashed ≤ u64Max`; all ring arithmetic below it is embedded exactly. -/

/-- `GossipInformation` (`cassandra_node/src/node.rs`, lines 52-59). -/
structure GossipInformation where
  node_id : String
  ip : String
  port_native_protocol : String
  port_gossip_query : String
  last_heartbeat : Int
  status : String
deriving DecidableEq, Repr

/-- `u64::MAX`. -/
def u64Max : Nat := 2 ^ 64 - 1

/-- The range-scan loop of `ConsistentHash::get_node_id`
(`consistent_hashing.rs`, lines 41-49): the first index `i` (starting from the
given `i`, for `fuel` more iterations) with `hashed <= (i+1)*range_len`.
All products stay below `2^64` because `(i+1) * (u64Max / n) ≤ u64Max` for
`i < n`, so plain `Nat` arithmetic coincides with the `u64` arithmetic of the
source. -/
def findRangeAux (hashed rangeLen : Nat) : Nat → Nat → Option Nat
  | 0, _ => none
  | fuel + 1, i =>
    if hashed ≤ (i + 1) * rangeLen then some i
    else findRangeAux hashed rangeLen fuel (i + 1)

/-- `ConsistentHash::get_node_id` (`consistent_hashing.rs`, lines 32-51),
with the hash of the partition keys passed in as `hashed`.  Returns `none`
for the source's `Err("Error hashing partition keys to get node")`. -/
def get_node_id (hashed : Nat) (gossip_table : List GossipInformation)
    (offset : Nat) : Option String :=
  (findRangeAux hashed (u64Max / gossip_table.length) gossip_table.length 0).bind
    (fun i =>
      if i + offset < gossip_table.length then
        (gossip_table.get? (i + offset)).map (fun g => g.node_id)
      else
        (gossip_table.get? (i + offset - gossip_table.length)).map
          (fun g => g.node_id))

/-- The collection loop of the `SimpleStrategy` arm of
`ReplicationStrategy::get_replica_nodes` (`replication_strategy.rs`,
lines 85-97): push the node for each offset; on the first failure return the
empty vector. -/
def simpleReplicaLoop (hashed : Nat) (gt : List GossipInformation) :
    Nat → Nat → List String → List String
  | 0, _, acc => acc
  | fuel + 1, i, acc =>
    match get_node_id hashed gt i with
    | some nid => simpleReplicaLoop hashed gt fuel (i + 1) (acc ++ [nid])
    | none => []

/-- `ReplicationStrategy::get_replica_nodes`, `SimpleStrategy` arm
(`replication_strategy.rs`, lines 85-97): the number of replicas is
`min replication_factor gossip_table.len()`. -/
def get_replica_nodes (replication_factor hashed : Nat)
    (gt : List GossipInformation) : List String :=
  simpleReplicaLoop hashed gt (min replication_factor gt.length) 0 []

/-- The node id stored at ring position `m` (a total wrapper around the list
indexing the source performs after a successful range scan). -/
def nodeIdAt (gt : List GossipInformation) (m : Nat) : String :=
  match gt.get? m with
  | some g => g.node_id
  | none => ""

theorem nodeIdAt_eq (gt : List GossipInformation) (m : Nat)
    (h : m < gt.length) :
    Option.map (fun g => g.node_id) (gt.get? m) = some (nodeIdAt gt m) := by
  unfold nodeIdAt
  rw [List.get?_eq_getElem?, List.getElem?_eq_getElem h]
  rfl

theorem findRangeAux_eq_some (hashed rangeLen : Nat) :
    ∀ (fuel i j : Nat), j < fuel → hashed ≤ (i + j + 1) * rangeLen →
    (∀ k < j, ¬ hashed ≤ (i + k + 1) * rangeLen) →
    findRangeAux hashed rangeLen fuel i = some (i + j) := by
  intro fuel
  induction fuel with
  | zero => intro i j hj; omega
  | succ fuel ih =>
    intro i j hj hle hmin
    by_cases h0 : hashed ≤ (i + 1) * rangeLen
    · have hj0 : j = 0 := by
        by_contra hne
        exact hmin 0 (Nat.pos_of_ne_zero hne) (by simpa using h0)
      subst hj0
      simp [findRangeAux, h0]
    · have hjpos : j ≠ 0 := by
        intro h; subst h; exact h0 (by simpa using hle)
      simp only [findRangeAux, h0, if_false]
      have := ih (i + 1) (j - 1) (by omega)
        (by have : i + 1 + (j - 1) + 1 = i + j + 1 := by omega
            rw [this]; exact hle)
        (by intro k hk
            have : i + 1 + k + 1 = i + (k + 1) + 1 := by omega
            rw [this]; exact hmin (k + 1) (by omega))
      rw [this]
      congr 1
      omega

/-- If the scan succeeds at ring position `p`, `get_node_id` at offset
`offset < N` returns the node at position `(p + offset) % N`. -/
theorem get_node_id_eq (hashed : Nat) (gt : List GossipInformation)
    (offset p : Nat) (hp : p < gt.length) (hoff : offset < gt.length)
    (hscan : findRangeAux hashed (u64Max / gt.length) gt.length 0 = some p) :
    get_node_id hashed gt offset = some (nodeIdAt gt ((p + offset) % gt.length)) := by
  unfold get_node_id
  rw [hscan, Option.some_bind]
  by_cases hlt : p + offset < gt.length
  · rw [if_pos hlt, Nat.mod_eq_of_lt hlt]
    exact nodeIdAt_eq gt (p + offset) hlt
  · rw [if_neg hlt]
    have hge : gt.length ≤ p + offset := Nat.le_of_not_lt hlt
    have hlt2 : p + offset - gt.length < gt.length := by omega
    have hmod : (p + offset) % gt.length = p + offset - gt.length := by
      rw [Nat.mod_eq_sub_mod hge, Nat.mod_eq_of_lt hlt2]
    rw [hmod]
    exact nodeIdAt_eq gt (p + offset - gt.length) hlt2

/-- One successful step of the replica-collection loop. -/
theorem simpleReplicaLoop_step (hashed : Nat) (gt : List GossipInformation)
    (fuel i : Nat) (acc : List String) (nid : String)
    (h : get_node_id hashed gt i = some nid) :
    simpleReplicaLoop hashed gt (fuel + 1) i acc
      = simpleReplicaLoop hashed gt fuel (i + 1) (acc ++ [nid]) := by
  rw [simpleReplicaLoop, h]

/-- The replica-collection loop, when every scan succeeds, appends the ring
successors `p + i, p + i + 1, …` (mod `N`) to the accumulator. -/
theorem simpleReplicaLoop_eq (hashed : Nat) (gt : List GossipInformation)
    (p : Nat) (hp : p < gt.length)
    (hscan : findRangeAux hashed (u64Max / gt.length) gt.length 0 = some p) :
    ∀ (fuel i : Nat) (acc : List String), i + fuel ≤ gt.length →
    simpleReplicaLoop hashed gt fuel i acc
      = acc ++ (List.range fuel).map
          (fun j => nodeIdAt gt ((p + (i + j)) % gt.length)) := by
  intro fuel
  induction fuel with
  | zero => intro i acc _; simp [simpleReplicaLoop]
  | succ fuel ih =>
    intro i acc hbound
    have hoff : i < gt.length := by omega
    rw [simpleReplicaLoop_step hashed gt fuel i acc _
      (get_node_id_eq hashed gt i p hp hoff hscan)]
    rw [ih (i + 1) _ (by omega)]
    rw [List.range_succ_eq_map]
    simp only [List.map_cons, List.map_map, List.append_assoc,
      List.singleton_append]
    congr 1
    congr 1
    apply List.map_congr_left
    intro j hj
    simp only [Function.comp_apply]
    have h2 : p + (i + 1 + j) = p + (i + (j + 1)) := by omega
    rw [h2]

/-- A live node used in concrete ring scenarios. -/
def ringNodeA : GossipInformation :=
  ⟨"NodeA", "127.0.0.1", "9042", "7001", 0, "Live"⟩

/-- A second live node used in concrete ring scenarios. -/
def ringNodeB : GossipInformation :=
  ⟨"NodeB", "127.0.0.2", "9042", "7002", 0, "Live"⟩

/-- Counterexample to C2: over two live nodes the ring ranges cover only
`[0, 2·⌊(2^64−1)/2⌋] = [0, 2^64−2]`, so for a partition-key hash of
`2^64 − 1` (a valid 64-bit hash) the scan of `get_node_id` falls through and
the Simple strategy returns the empty replica set — size `0`, not
`min(k, N) = 1`. -/
theorem claim_c2_counterexample :
    get_replica_nodes 1 (2 ^ 64 - 1) [ringNodeA, ringNodeB] = []
    ∧ min 1 ([ringNodeA, ringNodeB] : List GossipInformation).length = 1 := by
  constructor
  · rfl
  · rfl

/-- C2 (amended): for every partition-key hash, non-empty gossip table of `N`
nodes and replication factor `k`, **provided the hash lies in the covered part
of the ring** (`hashed ≤ N · ⌊(2^64−1)/N⌋`; hashes beyond it yield the empty
replica set, see the counterexample), the Simple-strategy replica set has size
exactly `min k N`, its first element (`j = 0`) is the node whose ring range
contains the hash — the least `p` with `hashed ≤ (p+1) · ⌊(2^64−1)/N⌋` —
and element `j` is the `j`-th ring successor `(p + j) % N`, wrapping
around. -/
theorem claim_c2_simple_strategy (gt : List GossipInformation)
    (k hashed : Nat) (hN : 0 < gt.length)
    (hcov : hashed ≤ gt.length * (u64Max / gt.length)) :
    ∃ p, p < gt.length
      ∧ hashed ≤ (p + 1) * (u64Max / gt.length)
      ∧ (∀ j < p, ¬ hashed ≤ (j + 1) * (u64Max / gt.length))
      ∧ (get_replica_nodes k hashed gt).length = min k gt.length
      ∧ (∀ j < min k gt.length,
          (get_replica_nodes k hashed gt).get? j
            = some (nodeIdAt gt ((p + j) % gt.length))) := by
  have hex : ∃ j, hashed ≤ (j + 1) * (u64Max / gt.length) := by
    refine ⟨gt.length - 1, ?_⟩
    have h1 : gt.length - 1 + 1 = gt.length := by omega
    rw [h1]
    exact hcov
  refine ⟨Nat.find hex, ?_, Nat.find_spec hex, fun j hj => Nat.find_min hex hj,
    ?_, ?_⟩
  · have : Nat.find hex ≤ gt.length - 1 := by
      apply Nat.find_le
      have h1 : gt.length - 1 + 1 = gt.length := by omega
      rw [h1]
      exact hcov
    omega
  all_goals {
    have hp : Nat.find hex < gt.length := by
      have : Nat.find hex ≤ gt.length - 1 := by
        apply Nat.find_le
        have h1 : gt.length - 1 + 1 = gt.length := by omega
        rw [h1]
        exact hcov
      omega
    have hscan : findRangeAux hashed (u64Max / gt.length) gt.length 0
        = some (Nat.find hex) := by
      have h0 : (0:Nat) + Nat.find hex = Nat.find hex := by omega
      have := findRangeAux_eq_some hashed (u64Max / gt.length) gt.length 0
        (Nat.find hex) hp
        (by rw [Nat.zero_add]; exact Nat.find_spec hex)
        (by intro m hm; rw [Nat.zero_add]; exact Nat.find_min hex hm)
      rw [this, h0]
    have hloop := simpleReplicaLoop_eq hashed gt (Nat.find hex) hp hscan
      (min k gt.length) 0 [] (by omega)
    rw [get_replica_nodes, hloop]
    first
      | · simp
      | · intro j hj
          rw [List.nil_append, List.get?_eq_getElem?, List.getElem?_map,
            List.getElem?_range (by simpa using hj)]
          simp
  }

/-- Witness for the amended C2: for hash `5` over the two-node table, RF `2`,
the replica set is characterised by the theorem. -/
theorem claim_c2_simple_strategy_witness :
    ∃ p, p < ([ringNodeA, ringNodeB] : List GossipInformation).length
      ∧ 5 ≤ (p + 1) * (u64Max / ([ringNodeA, ringNodeB] : List GossipInformation).length)
      ∧ (∀ j < p, ¬ (5:Nat) ≤ (j + 1) * (u64Max / ([ringNodeA, ringNodeB] : List GossipInformation).length))
      ∧ (get_replica_nodes 2 5 [ringNodeA, ringNodeB]).length
          = min 2 ([ringNodeA, ringNodeB] : List GossipInformation).length
      ∧ (∀ j < min 2 ([ringNodeA, ringNodeB] : List GossipInformation).length,
          (get_replica_nodes 2 5 [ringNodeA, ringNodeB]).get? j
            = some (nodeIdAt [ringNodeA, ringNodeB]
                ((p + j) % ([ringNodeA, ringNodeB] : List GossipInformation).length))) :=
  claim_c2_simple_strategy [ringNodeA, ringNodeB] 2 5 (by decide) (by decide)

/-! ## Predicates and their evaluation

From `src/cassandra_node/src/query_parser/expression.rs`. -/

/-- A row as the query layer sees it (`HashMap<String, String>`), modelled as
an association list where the first binding for a key wins. -/
abbrev Row := List (String × String)

/-- `HashMap::get` on the association-list model. -/
def rowGet (row : Row) (k : String) : Option String :=
  (row.find? (fun p => p.1 = k)).map (fun p => p.2)

/-- `Operand` (`expression.rs`, lines 32-36). -/
inductive Operand where
  | Column (name : String)
  | String (value : String)
  | Integer (value : String)
deriving DecidableEq, Repr

/-- `Expression` (`expression.rs`, lines 7-27). -/
inductive Expression where
  | True
  | And (left right : Expression)
  | Or (left right : Expression)
  | Not (right : Expression)
  | Comparison (left : Operand) (operator : String) (right : Operand)
deriving DecidableEq, Repr

/-- Value of a non-empty all-digit character list, `none` otherwise. -/
def digitsVal (cs : List Char) : Option Nat :=
  if cs = [] then none
  else if cs.all (fun c => 48 ≤ c.toNat && c.toNat ≤ 57) then
    some (cs.foldl (fun acc c => acc * 10 + (c.toNat - 48)) 0)
  else none

/-- `str_to_number` (`expression.rs`, lines 150-158): Rust's
`s.parse::<i32>()`, i.e. an optional sign, one or more ASCII digits, and the
value within `[-2^31, 2^31 - 1]`. -/
def str_to_number (s : String) : Option Int :=
  match s.data with
  | '+' :: rest =>
    (digitsVal rest).bind
      (fun n => if n ≤ 2147483647 then some (Int.ofNat n) else none)
  | '-' :: rest =>
    (digitsVal rest).bind
      (fun n => if n ≤ 2147483648 then some (-(Int.ofNat n)) else none)
  | cs =>
    (digitsVal cs).bind
      (fun n => if n ≤ 2147483647 then some (Int.ofNat n) else none)

/-- Byte-wise lexicographic comparison of Rust `String`s.  UTF-8 byte order
coincides with codepoint order, so the comparison runs on the codepoints. -/
def charListLt : List Char → List Char → Bool
  | [], [] => false
  | [], _ :: _ => true
  | _ :: _, [] => false
  | a :: as, b :: bs =>
    if a < b then true else if b < a then false else charListLt as bs

/-- `evaluate_operand` (`expression.rs`, lines 160-176). -/
def evaluate_operand (operand : Operand) (row : Row) : Except String String :=
  match operand with
  | Operand.Column name =>
    match rowGet row name with
    | some v => Except.ok v
    | none => Except.error ("Column not found: " ++ name)
  | Operand.String v => Except.ok v
  | Operand.Integer v => Except.ok v

/-- `evaluate_expression` (`expression.rs`, lines 40-93).  The `?` operator
becomes the explicit error match; when both operand values parse as `i32` the
comparison is numeric, otherwise it falls through to Rust's `String`
(byte-lexicographic) comparison. -/
def evaluate_expression : Expression → Row → Except String Bool
  | Expression.True, _ => Except.ok true
  | Expression.And l r, row =>
    match evaluate_expression l row with
    | Except.error e => Except.error e
    | Except.ok a =>
      match evaluate_expression r row with
      | Except.error e => Except.error e
      | Except.ok b => Except.ok (a && b)
  | Expression.Or l r, row =>
    match evaluate_expression l row with
    | Except.error e => Except.error e
    | Except.ok a =>
      match evaluate_expression r row with
      | Except.error e => Except.error e
      | Except.ok b => Except.ok (a || b)
  | Expression.Not e, row =>
    match evaluate_expression e row with
    | Except.error err => Except.error err
    | Except.ok b => Except.ok (!b)
  | Expression.Comparison l op r, row =>
    match evaluate_operand l row with
    | Except.error e => Except.error e
    | Except.ok lv =>
      match evaluate_operand r row with
      | Except.error e => Except.error e
      | Except.ok rv =>
        match str_to_number lv, str_to_number rv with
        | some a, some b =>
          match op with
          | "=" => Except.ok (decide (a = b))
          | ">" => Except.ok (decide (a > b))
          | "<" => Except.ok (decide (a < b))
          | ">=" => Except.ok (decide (a ≥ b))
          | "<=" => Except.ok (decide (a ≤ b))
          | _ => Except.error ("Invalid operator: " ++ op)
        | _, _ =>
          match op with
          | "=" => Except.ok (lv == rv)
          | ">" => Except.ok (charListLt rv.data lv.data)
          | "<" => Except.ok (charListLt lv.data rv.data)
          | ">=" => Except.ok (!charListLt lv.data rv.data)
          | "<=" => Except.ok (!charListLt rv.data lv.data)
          | _ => Except.error ("Invalid operator: " ++ op)

/-- The column names referenced by an operand. -/
def columnsOfOperand : Operand → List String
  | Operand.Column c => [c]
  | _ => []

/-- The column names referenced anywhere in a predicate. -/
def columnsOf : Expression → List String
  | Expression.True => []
  | Expression.And l r => columnsOf l ++ columnsOf r
  | Expression.Or l r => columnsOf l ++ columnsOf r
  | Expression.Not e => columnsOf e
  | Expression.Comparison l _ r => columnsOfOperand l ++ columnsOfOperand r

/-- Modelled from the spec: the numeric verdict of the five supported
operators on integers. -/
def specNumericCmp (op : String) (a b : Int) : Option Bool :=
  match op with
  | "=" => some (decide (a = b))
  | ">" => some (decide (a > b))
  | "<" => some (decide (a < b))
  | ">=" => some (decide (a ≥ b))
  | "<=" => some (decide (a ≤ b))
  | _ => none

/-- Modelled from the spec: the lexicographic verdict of the five supported
operators, using Lean's standard lexicographic string order. -/
def specLexicographicCmp (op : String) (x y : String) : Option Bool :=
  match op with
  | "=" => some (decide (x = y))
  | ">" => some (decide (y < x))
  | "<" => some (decide (x < y))
  | ">=" => some (decide (¬ x < y))
  | "<=" => some (decide (¬ y < x))
  | _ => none

theorem charListLt_iff (as bs : List Char) :
    charListLt as bs = true ↔ List.lt as bs := by
  induction as generalizing bs with
  | nil =>
    cases bs with
    | nil =>
      simp only [charListLt, Bool.false_eq_true, false_iff]
      intro h; cases h
    | cons b bs =>
      simp only [charListLt, true_iff]
      exact List.lt.nil b bs
  | cons a as ih =>
    cases bs with
    | nil =>
      simp only [charListLt, Bool.false_eq_true, false_iff]
      intro h; cases h
    | cons b bs =>
      by_cases hab : a < b
      · simp only [charListLt, if_pos hab, true_iff]
        exact List.lt.head as bs hab
      · by_cases hba : b < a
        · simp only [charListLt, if_neg hab, if_pos hba, Bool.false_eq_true,
            false_iff]
          intro h
          cases h with
          | head _ _ h => exact hab h
          | tail _ h _ => exact h hba
        · simp only [charListLt, if_neg hab, if_neg hba]
          rw [ih bs]
          constructor
          · intro h; exact List.lt.tail hab hba h
          · intro h
            cases h with
            | head _ _ h => exact absurd h hab
            | tail _ _ h => exact h

theorem string_lt_iff_data (x y : String) : x < y ↔ List.lt x.data y.data := by
  rw [String.lt_iff_toList_lt]
  exact (Iff.rfl :
      x.toList < y.toList ↔ List.Lex (fun a b : Char => a < b) x.data y.data).trans
    (List.lt_iff_lex_lt x.data y.data).symm

theorem charListLt_eq_decide (x y : String) :
    charListLt x.data y.data = decide (x < y) := by
  by_cases h : x < y
  · rw [(charListLt_iff x.data y.data).mpr ((string_lt_iff_data x y).mp h),
      decide_eq_true h]
  · rw [decide_eq_false h]
    cases hc : charListLt x.data y.data with
    | false => rfl
    | true =>
      exact absurd ((string_lt_iff_data x y).mpr
        ((charListLt_iff x.data y.data).mp hc)) h

/-- A referenced column missing from the row makes `evaluate_expression`
fail. -/
theorem evaluate_expression_missing_column (e : Expression) (row : Row)
    (h : ∃ c ∈ columnsOf e, rowGet row c = none) :
    ∃ msg, evaluate_expression e row = Except.error msg := by
  induction e with
  | True => obtain ⟨c, hc, _⟩ := h; simp [columnsOf] at hc
  | And l r ihl ihr =>
    obtain ⟨c, hc, habs⟩ := h
    simp only [columnsOf, List.mem_append] at hc
    cases hc with
    | inl hcl =>
      obtain ⟨msg, hmsg⟩ := ihl ⟨c, hcl, habs⟩
      exact ⟨msg, by simp [evaluate_expression, hmsg]⟩
    | inr hcr =>
      obtain ⟨msg, hmsg⟩ := ihr ⟨c, hcr, habs⟩
      cases hl : evaluate_expression l row with
      | error e => exact ⟨e, by simp [evaluate_expression, hl]⟩
      | ok a => exact ⟨msg, by simp [evaluate_expression, hl, hmsg]⟩
  | Or l r ihl ihr =>
    obtain ⟨c, hc, habs⟩ := h
    simp only [columnsOf, List.mem_append] at hc
    cases hc with
    | inl hcl =>
      obtain ⟨msg, hmsg⟩ := ihl ⟨c, hcl, habs⟩
      exact ⟨msg, by simp [evaluate_expression, hmsg]⟩
    | inr hcr =>
      obtain ⟨msg, hmsg⟩ := ihr ⟨c, hcr, habs⟩
      cases hl : evaluate_expression l row with
      | error e => exact ⟨e, by simp [evaluate_expression, hl]⟩
      | ok a => exact ⟨msg, by simp [evaluate_expression, hl, hmsg]⟩
  | Not e ih =>
    obtain ⟨c, hc, habs⟩ := h
    obtain ⟨msg, hmsg⟩ := ih ⟨c, hc, habs⟩
    exact ⟨msg, by simp [evaluate_expression, hmsg]⟩
  | Comparison l op r =>
    obtain ⟨c, hc, habs⟩ := h
    simp only [columnsOf, List.mem_append] at hc
    cases hc with
    | inl hcl =>
      cases l with
      | Column name =>
        simp only [columnsOfOperand, List.mem_singleton] at hcl
        subst hcl
        exact ⟨"Column not found: " ++ c,
          by simp [evaluate_expression, evaluate_operand, habs]⟩
      | String v => simp [columnsOfOperand] at hcl
      | Integer v => simp [columnsOfOperand] at hcl
    | inr hcr =>
      cases r with
      | Column name =>
        simp only [columnsOfOperand, List.mem_singleton] at hcr
        subst hcr
        cases hl : evaluate_operand l row with
        | error e => exact ⟨e, by simp [evaluate_expression, hl]⟩
        | ok lv =>
          refine ⟨"Column not found: " ++ c, ?_⟩
          simp only [evaluate_expression]
          rw [hl]
          simp [evaluate_operand, habs]
      | String v => simp [columnsOfOperand] at hcr
      | Integer v => simp [columnsOfOperand] at hcr

/-- When at least one operand value does not parse as `i32`, the comparison
falls through to the string branch of `evaluate_expression`. -/
theorem evaluate_comparison_fallthrough (l r : Operand) (op : String)
    (row : Row) (lv rv : String)
    (hl : evaluate_operand l row = Except.ok lv)
    (hr : evaluate_operand r row = Except.ok rv)
    (hnone : (str_to_number lv).isNone ∨ (str_to_number rv).isNone) :
    evaluate_expression (Expression.Comparison l op r) row
      = match op with
        | "=" => Except.ok (lv == rv)
        | ">" => Except.ok (charListLt rv.data lv.data)
        | "<" => Except.ok (charListLt lv.data rv.data)
        | ">=" => Except.ok (!charListLt lv.data rv.data)
        | "<=" => Except.ok (!charListLt rv.data lv.data)
        | _ => Except.error ("Invalid operator: " ++ op) := by
  cases hsl : str_to_number lv with
  | none =>
    cases hsr : str_to_number rv with
    | none => simp [evaluate_expression, hl, hr, hsl, hsr]
    | some b => simp [evaluate_expression, hl, hr, hsl, hsr]
  | some a =>
    cases hsr : str_to_number rv with
    | none => simp [evaluate_expression, hl, hr, hsl, hsr]
    | some b => simp [hsl, hsr] at hnone

/-- C9: for every predicate comparison and every row, when both operand
values parse as `i32` integers the comparison (`=`, `<`, `>`, `<=`, `>=`) is
evaluated numerically; otherwise it is evaluated lexicographically on the
strings (the standard lexicographic order); and a predicate referencing a
column absent from the row makes the whole evaluation fail with an error. -/
theorem claim_c9_comparison_semantics (l r : Operand) (op : String)
    (row : Row) (lv rv : String)
    (hl : evaluate_operand l row = Except.ok lv)
    (hr : evaluate_operand r row = Except.ok rv) :
    (∀ a b res, str_to_number lv = some a → str_to_number rv = some b →
        specNumericCmp op a b = some res →
        evaluate_expression (Expression.Comparison l op r) row = Except.ok res)
    ∧ (((str_to_number lv).isNone ∨ (str_to_number rv).isNone) →
        ∀ res, specLexicographicCmp op lv rv = some res →
        evaluate_expression (Expression.Comparison l op r) row = Except.ok res)
    ∧ (∀ (e : Expression) (row2 : Row),
        (∃ c ∈ columnsOf e, rowGet row2 c = none) →
        ∃ msg, evaluate_expression e row2 = Except.error msg) := by
  refine ⟨?_, ?_, evaluate_expression_missing_column⟩
  · intro a b res ha hb hres
    have hop : op = "=" ∨ op = ">" ∨ op = "<" ∨ op = ">=" ∨ op = "<=" := by
      by_contra hcon
      push_neg at hcon
      obtain ⟨h1, h2, h3, h4, h5⟩ := hcon
      simp [specNumericCmp, h1, h2, h3, h4, h5] at hres
    rcases hop with h | h | h | h | h <;> subst h <;>
      simp only [specNumericCmp, Option.some.injEq] at hres <;>
      simp [evaluate_expression, hl, hr, ha, hb, ← hres]
  · intro hnone res hres
    have hop : op = "=" ∨ op = ">" ∨ op = "<" ∨ op = ">=" ∨ op = "<=" := by
      by_contra hcon
      push_neg at hcon
      obtain ⟨h1, h2, h3, h4, h5⟩ := hcon
      simp [specLexicographicCmp, h1, h2, h3, h4, h5] at hres
    rcases hop with h | h | h | h | h
    · subst h
      simp only [specLexicographicCmp, Option.some.injEq] at hres
      rw [evaluate_comparison_fallthrough l r _ row lv rv hl hr hnone]
      subst hres
      show Except.ok (lv == rv) = Except.ok (decide (lv = rv))
      congr 1
    · subst h
      simp only [specLexicographicCmp, Option.some.injEq] at hres
      rw [evaluate_comparison_fallthrough l r _ row lv rv hl hr hnone]
      subst hres
      show Except.ok (charListLt rv.data lv.data) = Except.ok (decide (rv < lv))
      rw [charListLt_eq_decide]
    · subst h
      simp only [specLexicographicCmp, Option.some.injEq] at hres
      rw [evaluate_comparison_fallthrough l r _ row lv rv hl hr hnone]
      subst hres
      show Except.ok (charListLt lv.data rv.data) = Except.ok (decide (lv < rv))
      rw [charListLt_eq_decide]
    · subst h
      simp only [specLexicographicCmp, Option.some.injEq] at hres
      rw [evaluate_comparison_fallthrough l r _ row lv rv hl hr hnone]
      subst hres
      show Except.ok (!charListLt lv.data rv.data) = Except.ok (decide ¬ lv < rv)
      rw [charListLt_eq_decide, decide_not]
    · subst h
      simp only [specLexicographicCmp, Option.some.injEq] at hres
      rw [evaluate_comparison_fallthrough l r _ row lv rv hl hr hnone]
      subst hres
      show Except.ok (!charListLt rv.data lv.data) = Except.ok (decide ¬ rv < lv)
      rw [charListLt_eq_decide, decide_not]


/-- Witness for C9: `age < 30` on a row with `age = "4"` compares
numerically (4 < 30), where the lexicographic comparison would have said the
opposite. -/
theorem claim_c9_comparison_semantics_witness :
    evaluate_expression
      (Expression.Comparison (Operand.Column "age") "<" (Operand.Integer "30"))
      [("age", "4")] = Except.ok true :=
  (claim_c9_comparison_semantics (Operand.Column "age") (Operand.Integer "30")
      "<" [("age", "4")] "4" "30" rfl rfl).1
    4 30 true rfl rfl rfl

/-! ## Coordinator handling of UPDATE/DELETE predicates

From `src/cassandra_node/src/query_parser/expression.rs` (partition-key
extraction), `src/cassandra_node/src/node.rs` (`get_nodes_for_condition` and
the `Update`/`Delete` arms of `resend_query_as_internal_message`, which are
textually identical in their node selection and consistency handling), and
`src/common/src/frame/messages/error.rs`. -/

/-- `extract_value_supposing_column_equals_value` (`expression.rs`,
lines 104-148): extracts the literal from `column = literal` or
`column = literal AND …`; every other shape yields `None`. -/
def extract_value_supposing_column_equals_value (expression : Expression) :
    Option String :=
  match expression with
  | Expression.Comparison (Operand.Column _) op (Operand.String v) =>
    if op = "=" then some v else none
  | Expression.Comparison (Operand.Column _) op (Operand.Integer v) =>
    if op = "=" then some v else none
  | Expression.And l _ =>
    match l with
    | Expression.Comparison (Operand.Column _) op (Operand.String v) =>
      if op = "=" then some v else none
    | Expression.Comparison (Operand.Column _) op (Operand.Integer v) =>
      if op = "=" then some v else none
    | _ => none
  | _ => none

/-- `HashMap::get` on a string-keyed association list. -/
def alistGet {α : Type} (l : List (String × α)) (k : String) : Option α :=
  (l.find? (fun p => p.1 = k)).map (fun p => p.2)

/-- The error codes of the client protocol used by the coordinator arms
(`common/src/frame/messages/error.rs`). -/
inductive ErrorCode where
  | UnavailableException
  | SyntaxError
  | Invalid
deriving DecidableEq, Repr

/-- The query results produced by the coordinator arms
(`common/src/frame/messages/query_result`). -/
inductive QueryResult where
  | Void
  | Rows (json : String)
  | SchemaChange (change : String)
deriving DecidableEq, Repr

/-- `Node::get_nodes_for_condition` (`node.rs`, lines 2002-2040).  The
keyspace catalog maps each keyspace to its Simple-strategy replication factor
(the only strategy the coordinator activates); `hashOf key` stands for
`hash_vector(vec![key])`.  A non-extractable predicate, a missing keyspace,
or a failed scan all yield the empty vector, exactly as in the source. -/
def get_nodes_for_condition (hashOf : String → Nat)
    (keyspaces : List (String × Nat)) (keyspace_name : String)
    (gt : List GossipInformation) (condition : Expression) : List String :=
  match extract_value_supposing_column_equals_value condition with
  | none => []
  | some key =>
    match alistGet keyspaces keyspace_name with
    | some rf => get_replica_nodes rf (hashOf key) gt
    | none => []

/-- The `Update`/`Delete` arm of `resend_query_as_internal_message`
(`node.rs`, lines 1388-1471 and 1473-1550): compute the target nodes, collect
the channel trace under the consistency level against `nodes.length`
dispatched workers, and map the outcome to `Void` or `UnavailableException`.
Returns the pair (nodes that are sent the statement, client result). -/
def mutationArm (cl : Consistency) (hashOf : String → Nat)
    (keyspaces : List (String × Nat)) (keyspace_name : String)
    (gt : List GossipInformation) (condition : Expression)
    (msgs : List RespMsg) : List String × Except ErrorCode QueryResult :=
  let nodes := get_nodes_for_condition hashOf keyspaces keyspace_name gt condition
  (nodes,
    match check_consistency_level cl msgs nodes.length with
    | Except.ok _ => Except.ok QueryResult.Void
    | Except.error _ => Except.error ErrorCode.UnavailableException)

/-- Counterexample to C5: for the non-extractable predicate `x < 3` the
Update/Delete arm fails with `UnavailableException` (at consistency ONE),
not with the `Invalid` error code the claim names. -/
theorem claim_c5_counterexample :
    (mutationArm Consistency.One (fun _ => 0) [("ks", 2)] "ks" [ringNodeA]
        (Expression.Comparison (Operand.Column "x") "<" (Operand.Integer "3"))
        []).2
      = Except.error ErrorCode.UnavailableException
    ∧ (mutationArm Consistency.One (fun _ => 0) [("ks", 2)] "ks" [ringNodeA]
        (Expression.Comparison (Operand.Column "x") "<" (Operand.Integer "3"))
        []).2
      ≠ Except.error ErrorCode.Invalid := by
  refine ⟨rfl, fun h => ?_⟩
  exact ErrorCode.noConfusion (Except.error.inj h)

/-- C5 (amended): for every UPDATE or DELETE whose predicate is not of the
extractable `pk = literal [AND …]` shape, `get_nodes_for_condition` returns
the empty replica set, so the statement is sent to no node and no row on any
replica is mutated; the zero-worker collection then fails with
`UnavailableException` at consistency ONE or QUORUM (not `Invalid`), and at
consistency ALL it vacuously succeeds with `Void`. -/
theorem claim_c5_nonextractable_predicate (condition : Expression)
    (hextract : extract_value_supposing_column_equals_value condition = none)
    (hashOf : String → Nat) (keyspaces : List (String × Nat))
    (keyspace_name : String) (gt : List GossipInformation) (cl : Consistency) :
    get_nodes_for_condition hashOf keyspaces keyspace_name gt condition = []
    ∧ (cl = Consistency.One ∨ cl = Consistency.Quorum →
        (mutationArm cl hashOf keyspaces keyspace_name gt condition []).2
          = Except.error ErrorCode.UnavailableException)
    ∧ (cl = Consistency.All →
        (mutationArm cl hashOf keyspaces keyspace_name gt condition []).2
          = Except.ok QueryResult.Void) := by
  have hnodes :
      get_nodes_for_condition hashOf keyspaces keyspace_name gt condition = [] := by
    unfold get_nodes_for_condition
    rw [hextract]
  refine ⟨hnodes, ?_, ?_⟩
  · rintro (hcl | hcl) <;> subst hcl <;>
      simp [mutationArm, hnodes, check_consistency_level, cclLoop,
        Consistency.required_nodes]
  · intro hcl
    subst hcl
    simp [mutationArm, hnodes, check_consistency_level, cclLoop,
      Consistency.required_nodes]

/-- Witness for the amended C5: the predicate `x < 3` at QUORUM is sent to
nobody and fails with `UnavailableException`; at ALL it returns `Void`. -/
theorem claim_c5_nonextractable_predicate_witness :
    get_nodes_for_condition (fun _ => 0) [("ks", 2)] "ks" [ringNodeA]
        (Expression.Comparison (Operand.Column "x") "<" (Operand.Integer "3"))
      = []
    ∧ (Consistency.Quorum = Consistency.One ∨
        Consistency.Quorum = Consistency.Quorum →
        (mutationArm Consistency.Quorum (fun _ => 0) [("ks", 2)] "ks"
            [ringNodeA]
            (Expression.Comparison (Operand.Column "x") "<"
              (Operand.Integer "3")) []).2
          = Except.error ErrorCode.UnavailableException)
    ∧ (Consistency.Quorum = Consistency.All →
        (mutationArm Consistency.Quorum (fun _ => 0) [("ks", 2)] "ks"
            [ringNodeA]
            (Expression.Comparison (Operand.Column "x") "<"
              (Operand.Integer "3")) []).2
          = Except.ok QueryResult.Void) :=
  claim_c5_nonextractable_predicate
    (Expression.Comparison (Operand.Column "x") "<" (Operand.Integer "3"))
    rfl (fun _ => 0) [("ks", 2)] "ks" [ringNodeA] Consistency.Quorum

/-! ## Gossip merge

From `src/cassandra_node/src/node.rs`, `Node::update_gossip_table`
(lines 251-314). -/

/-- The update applied to a matching local entry
(`node.rs`, lines 269-292): overwrite heartbeat and status only when the
incoming heartbeat is strictly greater. -/
def applyHeartbeat (g l : GossipInformation) : GossipInformation :=
  if l.last_heartbeat < g.last_heartbeat then
    { l with last_heartbeat := g.last_heartbeat, status := g.status }
  else l

/-- The condition under which `update_gossip_table` spawns `send_hints`
(`node.rs`, lines 269-288): strictly newer heartbeat, local `Dead`, incoming
`Live`. -/
def hintCond (g l : GossipInformation) : Bool :=
  decide (l.last_heartbeat < g.last_heartbeat)
    && (l.status == "Dead") && (g.status == "Live")

/-- The inner scan of `update_gossip_table` over the local table for one
incoming entry (`node.rs`, lines 265-295): find the first entry with the same
`node_id`, update it, and report (new table, found flag, hint flag). -/
def mergeEntryAux (g : GossipInformation) :
    List GossipInformation → List GossipInformation × Bool × Bool
  | [] => ([], false, false)
  | l :: rest =>
    if l.node_id = g.node_id then
      (applyHeartbeat g l :: rest, true, hintCond g l)
    else
      let r := mergeEntryAux g rest
      (l :: r.1, r.2.1, r.2.2)

/-- The mutable state of one `update_gossip_table` call: the local table, the
node ids for which a hint replay has been spawned (in spawn order), and the
newly detected nodes. -/
structure MergeState where
  table : List GossipInformation
  hints : List String
  newNodes : List GossipInformation
deriving DecidableEq, Repr

/-- Processing of one incoming entry (`node.rs`, lines 264-301): update the
first matching local entry, or append the entry and record it as a new
node. -/
def mergeOne (st : MergeState) (g : GossipInformation) : MergeState :=
  let r := mergeEntryAux g st.table
  if r.2.1 then
    { table := r.1
      hints := if r.2.2 then st.hints ++ [g.node_id] else st.hints
      newNodes := st.newNodes }
  else
    { table := r.1 ++ [g]
      hints := st.hints
      newNodes := st.newNodes ++ [g] }

/-- The relation `sort_by(|a, b| a.node_id.cmp(&b.node_id))` sorts by. -/
def nodeIdLe (a b : GossipInformation) : Prop := a.node_id ≤ b.node_id

instance : DecidableRel nodeIdLe := fun a b =>
  inferInstanceAs (Decidable (a.node_id ≤ b.node_id))

/-- `Node::update_gossip_table` (`node.rs`, lines 251-314): merge every
incoming entry into the local table, then sort the table by `node_id`
(a stable sort modelling Rust's `sort_by`). -/
def update_gossip_table (localT incoming : List GossipInformation) :
    MergeState :=
  ⟨List.insertionSort nodeIdLe
      (incoming.foldl mergeOne ⟨localT, [], []⟩).table,
   (incoming.foldl mergeOne ⟨localT, [], []⟩).hints,
   (incoming.foldl mergeOne ⟨localT, [], []⟩).newNodes⟩

instance : IsTotal GossipInformation nodeIdLe :=
  ⟨fun a b => le_total a.node_id b.node_id⟩

instance : IsTrans GossipInformation nodeIdLe :=
  ⟨fun _ _ _ hab hbc => le_trans hab hbc⟩

/-- `applyHeartbeat` restricted to the matching id, as a per-entry map. -/
def applyIfMatch (g l : GossipInformation) : GossipInformation :=
  if l.node_id = g.node_id then applyHeartbeat g l else l

/-- Whether the table already holds an entry for `g.node_id`. -/
def isKnown (T : List GossipInformation) (g : GossipInformation) : Bool :=
  T.any (fun l => l.node_id = g.node_id)

/-- Whether the merge of `g` into `T` triggers a hint replay. -/
def hintTriggered (T : List GossipInformation) (g : GossipInformation) :
    Bool :=
  match T.find? (fun l => l.node_id = g.node_id) with
  | some l => hintCond g l
  | none => false

/-- The cumulative update an incoming table applies to one local entry:
the first incoming entry with the same id (there is at most one in a
well-formed gossip table) is applied. -/
def updBy (I : List GossipInformation) (l : GossipInformation) :
    GossipInformation :=
  match I.find? (fun g => g.node_id = l.node_id) with
  | some g => applyHeartbeat g l
  | none => l

/-- All `node_id`s of a gossip table are pairwise distinct. -/
def UniqueIds (T : List GossipInformation) : Prop :=
  T.Pairwise (fun a b => a.node_id ≠ b.node_id)

theorem applyHeartbeat_node_id (g l : GossipInformation) :
    (applyHeartbeat g l).node_id = l.node_id := by
  unfold applyHeartbeat
  split <;> rfl

theorem applyIfMatch_node_id (g l : GossipInformation) :
    (applyIfMatch g l).node_id = l.node_id := by
  unfold applyIfMatch
  split
  · exact applyHeartbeat_node_id g l
  · rfl

theorem mergeEntryAux_unknown (g : GossipInformation)
    (T : List GossipInformation) (h : isKnown T g = false) :
    mergeEntryAux g T = (T, false, false) := by
  induction T with
  | nil => rfl
  | cons l rest ih =>
    simp only [isKnown, List.any_cons, Bool.or_eq_false_iff,
      decide_eq_false_iff_not] at h
    simp only [mergeEntryAux, if_neg h.1]
    rw [ih (by simp [isKnown, h.2])]

theorem mergeEntryAux_known (g : GossipInformation)
    (T : List GossipInformation) (hu : UniqueIds T) (h : isKnown T g = true) :
    mergeEntryAux g T
      = (T.map (applyIfMatch g), true, hintTriggered T g) := by
  induction T with
  | nil => simp [isKnown] at h
  | cons l rest ih =>
    by_cases heq : l.node_id = g.node_id
    · simp only [mergeEntryAux, if_pos heq, List.map_cons]
      have hrest : rest.map (applyIfMatch g) = rest := by
        conv_rhs => rw [← List.map_id rest]
        apply List.map_congr_left
        intro x hx
        have hne : x.node_id ≠ g.node_id := by
          rw [← heq]
          exact fun hxx => (List.pairwise_cons.mp hu).1 x hx hxx.symm
        simp [applyIfMatch, hne]
      have htrig : hintTriggered (l :: rest) g = hintCond g l := by
        simp [hintTriggered, List.find?_cons, heq]
      rw [hrest, htrig]
      simp [applyIfMatch, heq]
    · have hrest : isKnown rest g = true := by
        simp only [isKnown, List.any_cons, Bool.or_eq_true,
          decide_eq_true_eq] at h
        rcases h with h | h
        · exact absurd h heq
        · exact h
      simp only [mergeEntryAux, if_neg heq]
      rw [ih (List.pairwise_cons.mp hu).2 hrest]
      have htrig : hintTriggered (l :: rest) g = hintTriggered rest g := by
        simp [hintTriggered, List.find?_cons, heq]
      simp [applyIfMatch, heq, htrig]

theorem isKnown_false_iff (T : List GossipInformation)
    (g : GossipInformation) :
    isKnown T g = false ↔ ∀ l ∈ T, l.node_id ≠ g.node_id := by
  simp [isKnown, List.any_eq_false]

theorem isKnown_map_applyIfMatch (T : List GossipInformation)
    (g g' : GossipInformation) :
    isKnown (T.map (applyIfMatch g)) g' = isKnown T g' := by
  unfold isKnown
  rw [List.any_map]
  have hpred : ((fun l => decide (l.node_id = g'.node_id)) ∘ applyIfMatch g)
      = fun l => decide (l.node_id = g'.node_id) := by
    funext l
    simp [Function.comp, applyIfMatch_node_id]
  rw [hpred]

theorem isKnown_append_single (T : List GossipInformation)
    (g g' : GossipInformation) (hne : g'.node_id ≠ g.node_id) :
    isKnown (T ++ [g]) g' = isKnown T g' := by
  unfold isKnown
  rw [List.any_append]
  have hne2 : ¬ (g.node_id = g'.node_id) := fun h => hne h.symm
  have : ([g].any fun l => l.node_id = g'.node_id) = false := by
    simp [hne2]
  rw [this, Bool.or_false]

theorem hintTriggered_map_applyIfMatch (T : List GossipInformation)
    (g g' : GossipInformation) (hne : g'.node_id ≠ g.node_id) :
    hintTriggered (T.map (applyIfMatch g)) g' = hintTriggered T g' := by
  unfold hintTriggered
  rw [List.find?_map]
  have hpred : ((fun l => decide (l.node_id = g'.node_id)) ∘ applyIfMatch g)
      = fun l => decide (l.node_id = g'.node_id) := by
    funext l
    simp [Function.comp, applyIfMatch_node_id]
  rw [hpred]
  cases hf : T.find? (fun l => decide (l.node_id = g'.node_id)) with
  | none => rfl
  | some l =>
    have hid : l.node_id = g'.node_id := by
      have := List.find?_some hf
      simpa using this
    have : applyIfMatch g l = l := by
      unfold applyIfMatch
      rw [if_neg (by rw [hid]; exact hne)]
    simp [this]

theorem hintTriggered_append_single (T : List GossipInformation)
    (g g' : GossipInformation) (hne : g'.node_id ≠ g.node_id) :
    hintTriggered (T ++ [g]) g' = hintTriggered T g' := by
  unfold hintTriggered
  cases hf : T.find? (fun l => decide (l.node_id = g'.node_id)) with
  | none =>
    have hne2 : ¬ (g.node_id = g'.node_id) := fun h => hne h.symm
    have hfa : (T ++ [g]).find? (fun l => decide (l.node_id = g'.node_id))
        = none := by
      rw [List.find?_eq_none]
      intro x hx
      rcases List.mem_append.mp hx with hx | hx
      · exact (List.find?_eq_none.mp hf) x hx
      · have hxg : x = g := by simpa using hx
        subst hxg
        simp [hne2]
    rw [hfa]
  | some l =>
    have hfa : (T ++ [g]).find? (fun l => decide (l.node_id = g'.node_id))
        = some l := by
      induction T with
      | nil => simp at hf
      | cons t ts ih =>
        rw [List.cons_append]
        by_cases hp : t.node_id = g'.node_id
        · rw [List.find?_cons_of_pos _ (by simp [hp])] at hf
          rw [List.find?_cons_of_pos _ (by simp [hp])]
          exact hf
        · rw [List.find?_cons_of_neg _ (by simp [hp])] at hf
          rw [List.find?_cons_of_neg _ (by simp [hp])]
          exact ih hf
    rw [hfa]

theorem hintTriggered_false_of_unknown (T : List GossipInformation)
    (g : GossipInformation) (h : isKnown T g = false) :
    hintTriggered T g = false := by
  unfold hintTriggered
  have : T.find? (fun l => decide (l.node_id = g.node_id)) = none := by
    rw [List.find?_eq_none]
    intro x hx
    simp [(isKnown_false_iff T g).mp h x hx]
  rw [this]

theorem updBy_nil (l : GossipInformation) : updBy [] l = l := rfl

theorem updBy_self_of_absent (I : List GossipInformation)
    (g : GossipInformation) (h : ∀ x ∈ I, x.node_id ≠ g.node_id) :
    updBy I g = g := by
  unfold updBy
  have : I.find? (fun x => decide (x.node_id = g.node_id)) = none := by
    rw [List.find?_eq_none]
    intro x hx
    simp [h x hx]
  rw [this]

theorem updBy_cons_of_ne (I : List GossipInformation)
    (g l : GossipInformation) (h : g.node_id ≠ l.node_id) :
    updBy (g :: I) l = updBy I l := by
  unfold updBy
  rw [List.find?_cons_of_neg _ (by simp [h])]

theorem updBy_applyIfMatch (I : List GossipInformation)
    (g l : GossipInformation) (hgI : ∀ x ∈ I, x.node_id ≠ g.node_id) :
    updBy I (applyIfMatch g l) = updBy (g :: I) l := by
  by_cases heq : l.node_id = g.node_id
  · have h1 : applyIfMatch g l = applyHeartbeat g l := by
      unfold applyIfMatch; rw [if_pos heq]
    rw [h1]
    have h2 : updBy I (applyHeartbeat g l) = applyHeartbeat g l := by
      apply updBy_self_of_absent
      intro x hx
      rw [applyHeartbeat_node_id, heq]
      exact hgI x hx
    rw [h2]
    unfold updBy
    rw [List.find?_cons_of_pos _ (by simp [heq.symm])]
  · have h1 : applyIfMatch g l = l := by
      unfold applyIfMatch; rw [if_neg heq]
    rw [h1, updBy_cons_of_ne I g l (fun h => heq h.symm)]


theorem uniqueIds_map_applyIfMatch (T : List GossipInformation)
    (g : GossipInformation) (hT : UniqueIds T) :
    UniqueIds (T.map (applyIfMatch g)) := by
  unfold UniqueIds at hT ⊢
  rw [List.pairwise_map]
  apply List.Pairwise.imp _ hT
  intro a b hab
  rw [applyIfMatch_node_id, applyIfMatch_node_id]
  exact hab

theorem uniqueIds_append_single (T : List GossipInformation)
    (g : GossipInformation) (hT : UniqueIds T)
    (hfresh : ∀ l ∈ T, l.node_id ≠ g.node_id) :
    UniqueIds (T ++ [g]) := by
  unfold UniqueIds
  rw [List.pairwise_append]
  refine ⟨hT, List.pairwise_singleton _ _, ?_⟩
  intro a ha b hb
  have hbg : b = g := by simpa using hb
  subst hbg
  exact hfresh a ha

/-- The merge loop of `update_gossip_table`, characterised: over a local
table and an incoming table with unique ids, the final (unsorted) table is
the local table with each entry updated by its matching incoming entry,
followed by the unknown incoming entries in arrival order; the hint replays
are spawned exactly for the incoming entries whose matching local entry was
strictly older, `Dead`, and incoming `Live`; the new nodes are the unknown
incoming entries. -/
theorem foldl_mergeOne_eq (I : List GossipInformation) :
    ∀ (T : List GossipInformation) (hs : List String)
      (ns : List GossipInformation), UniqueIds T → UniqueIds I →
    I.foldl mergeOne ⟨T, hs, ns⟩
      = ⟨T.map (updBy I) ++ I.filter (fun g => !isKnown T g),
         hs ++ (I.filter (fun g => hintTriggered T g)).map
           (fun g => g.node_id),
         ns ++ I.filter (fun g => !isKnown T g)⟩ := by
  induction I with
  | nil =>
    intro T hs ns _ _
    have hmap : T.map (updBy []) = T := by
      conv_rhs => rw [← List.map_id T]
      exact List.map_congr_left (fun x _ => rfl)
    simp [hmap]
  | cons g I ih =>
    intro T hs ns hT hI
    have hI2 : UniqueIds I := (List.pairwise_cons.mp hI).2
    have hgI : ∀ x ∈ I, g.node_id ≠ x.node_id := (List.pairwise_cons.mp hI).1
    rw [List.foldl_cons]
    by_cases hk : isKnown T g = true
    · have hmerge : mergeOne ⟨T, hs, ns⟩ g
          = ⟨T.map (applyIfMatch g),
             if hintTriggered T g then hs ++ [g.node_id] else hs, ns⟩ := by
        unfold mergeOne
        rw [mergeEntryAux_known g T hT hk]
        simp
      rw [hmerge, ih (T.map (applyIfMatch g)) _ _
        (uniqueIds_map_applyIfMatch T g hT) hI2]
      have htab : (T.map (applyIfMatch g)).map (updBy I)
          = T.map (updBy (g :: I)) := by
        rw [List.map_map]
        apply List.map_congr_left
        intro l _
        exact updBy_applyIfMatch I g l (fun x hx h => hgI x hx h.symm)
      have hfilt : I.filter (fun x => !isKnown (T.map (applyIfMatch g)) x)
          = I.filter (fun x => !isKnown T x) := by
        apply List.filter_congr
        intro x _
        rw [isKnown_map_applyIfMatch]
      have hfiltc : (g :: I).filter (fun x => !isKnown T x)
          = I.filter (fun x => !isKnown T x) := by
        rw [List.filter_cons]
        simp [hk]
      have hhint : I.filter (fun x => hintTriggered (T.map (applyIfMatch g)) x)
          = I.filter (fun x => hintTriggered T x) := by
        apply List.filter_congr
        intro x hx
        rw [hintTriggered_map_applyIfMatch T g x (fun h => hgI x hx h.symm)]
      have hhintc : (g :: I).filter (fun x => hintTriggered T x)
          = if hintTriggered T g then
              g :: I.filter (fun x => hintTriggered T x)
            else I.filter (fun x => hintTriggered T x) := by
        rw [List.filter_cons]
      simp only [MergeState.mk.injEq]
      refine ⟨?_, ?_, ?_⟩
      · rw [htab, hfilt, hfiltc]
      · rw [hhint, hhintc]
        by_cases ht : hintTriggered T g = true
        · rw [if_pos ht, if_pos ht]
          simp
        · rw [if_neg ht, if_neg ht]
      · rw [hfilt, hfiltc]
    · have hkf : isKnown T g = false := by
        cases h : isKnown T g with
        | false => rfl
        | true => exact absurd h hk
      have hfresh : ∀ l ∈ T, l.node_id ≠ g.node_id :=
        (isKnown_false_iff T g).mp hkf
      have hmerge : mergeOne ⟨T, hs, ns⟩ g = ⟨T ++ [g], hs, ns ++ [g]⟩ := by
        unfold mergeOne
        rw [mergeEntryAux_unknown g T hkf]
        simp
      rw [hmerge, ih (T ++ [g]) _ _
        (uniqueIds_append_single T g hT hfresh) hI2]
      have htab : (T ++ [g]).map (updBy I)
          = T.map (updBy (g :: I)) ++ [g] := by
        rw [List.map_append]
        congr 1
        · apply List.map_congr_left
          intro l hl
          exact (updBy_cons_of_ne I g l
            (fun h => hfresh l hl h.symm)).symm
        · simp only [List.map_cons, List.map_nil]
          rw [updBy_self_of_absent I g (fun x hx h => hgI x hx h.symm)]
      have hfilt : I.filter (fun x => !isKnown (T ++ [g]) x)
          = I.filter (fun x => !isKnown T x) := by
        apply List.filter_congr
        intro x hx
        rw [isKnown_append_single T g x (fun h => hgI x hx h.symm)]
      have hfiltc : (g :: I).filter (fun x => !isKnown T x)
          = g :: I.filter (fun x => !isKnown T x) := by
        rw [List.filter_cons]
        simp [hkf]
      have hhint : I.filter (fun x => hintTriggered (T ++ [g]) x)
          = I.filter (fun x => hintTriggered T x) := by
        apply List.filter_congr
        intro x hx
        rw [hintTriggered_append_single T g x (fun h => hgI x hx h.symm)]
      have hhintc : (g :: I).filter (fun x => hintTriggered T x)
          = I.filter (fun x => hintTriggered T x) := by
        rw [List.filter_cons]
        simp [hintTriggered_false_of_unknown T g hkf]
      simp only [MergeState.mk.injEq]
      refine ⟨?_, ?_, ?_⟩
      · rw [htab, hfilt, hfiltc, List.append_assoc, List.singleton_append]
      · rw [hhint, hhintc]
      · rw [hfilt, hfiltc, List.append_assoc, List.singleton_append]

theorem updBy_node_id (I : List GossipInformation) (l : GossipInformation) :
    (updBy I l).node_id = l.node_id := by
  unfold updBy
  cases I.find? (fun g => g.node_id = l.node_id) with
  | none => rfl
  | some g => exact applyHeartbeat_node_id g l

theorem find?_id_unique (T : List GossipInformation) (hT : UniqueIds T)
    (l : GossipInformation) (hl : l ∈ T) (idv : String)
    (hid : l.node_id = idv) :
    T.find? (fun x => x.node_id = idv) = some l := by
  induction T with
  | nil => simp at hl
  | cons h rest ih =>
    rcases List.mem_cons.mp hl with hl | hl
    · subst hl
      exact List.find?_cons_of_pos _ (by simp [hid])
    · have hne : h.node_id ≠ idv := by
        rw [← hid]
        exact (List.pairwise_cons.mp hT).1 l hl
      rw [List.find?_cons_of_neg _ (by simp [hne])]
      exact ih (List.pairwise_cons.mp hT).2 hl

theorem hintCond_iff (g l : GossipInformation) :
    hintCond g l = true
      ↔ l.last_heartbeat < g.last_heartbeat
        ∧ l.status = "Dead" ∧ g.status = "Live" := by
  simp [hintCond, Bool.and_eq_true, and_assoc]

/-- The unsorted merged table has unique ids. -/
theorem uniqueIds_merged (localT incoming : List GossipInformation)
    (hL : UniqueIds localT) (hI : UniqueIds incoming) :
    UniqueIds (localT.map (updBy incoming)
      ++ incoming.filter (fun g => !isKnown localT g)) := by
  unfold UniqueIds
  rw [List.pairwise_append]
  refine ⟨?_, ?_, ?_⟩
  · rw [List.pairwise_map]
    apply List.Pairwise.imp _ hL
    intro a b hab
    rw [updBy_node_id, updBy_node_id]
    exact hab
  · exact List.Pairwise.sublist (List.filter_sublist incoming) hI
  · intro a ha b hb
    obtain ⟨la, hla, rfl⟩ := List.mem_map.mp ha
    have hb2 := List.mem_filter.mp hb
    have hfresh : ∀ x ∈ localT, x.node_id ≠ b.node_id :=
      (isKnown_false_iff localT b).mp (by simpa using hb2.2)
    rw [updBy_node_id]
    exact hfresh la hla

/-- C6: for every received gossip table (with pairwise-distinct node ids)
merged into a well-formed local table, `update_gossip_table`
(a) appends each incoming entry whose `node_id` is not known locally,
(b) overwrites the matching local entry's heartbeat and status exactly when
the incoming `last_heartbeat` is strictly greater, and leaves it unchanged
otherwise, (c) spawns an asynchronous hint replay exactly for the incoming
entries whose matching local entry was strictly older with local status
`Dead` and incoming status `Live`, (d) keeps every local entry whose id does
not occur in the incoming table, and (e) leaves the local table sorted by
`node_id` with at most one entry per `node_id`. -/
theorem claim_c6_gossip_merge (localT incoming : List GossipInformation)
    (hL : UniqueIds localT) (hI : UniqueIds incoming) :
    List.Sorted nodeIdLe (update_gossip_table localT incoming).table
    ∧ UniqueIds (update_gossip_table localT incoming).table
    ∧ (∀ g ∈ incoming, isKnown localT g = false →
        g ∈ (update_gossip_table localT incoming).table)
    ∧ (∀ g ∈ incoming, ∀ l ∈ localT, l.node_id = g.node_id →
        (l.last_heartbeat < g.last_heartbeat →
          ({ l with last_heartbeat := g.last_heartbeat, status := g.status } : GossipInformation) ∈ (update_gossip_table localT incoming).table)
        ∧ (¬ l.last_heartbeat < g.last_heartbeat →
            l ∈ (update_gossip_table localT incoming).table))
    ∧ (∀ l ∈ localT, isKnown incoming l = false →
        l ∈ (update_gossip_table localT incoming).table)
    ∧ (update_gossip_table localT incoming).hints
        = (incoming.filter (fun g => hintTriggered localT g)).map
            (fun g => g.node_id)
    ∧ (∀ g, hintTriggered localT g = true
        ↔ ∃ l ∈ localT, l.node_id = g.node_id
            ∧ l.last_heartbeat < g.last_heartbeat
            ∧ l.status = "Dead" ∧ g.status = "Live")
    ∧ (update_gossip_table localT incoming).newNodes
        = incoming.filter (fun g => !isKnown localT g) := by
  have hfold := foldl_mergeOne_eq incoming localT [] [] hL hI
  have htable : (update_gossip_table localT incoming).table
      = List.insertionSort nodeIdLe
          (localT.map (updBy incoming)
            ++ incoming.filter (fun g => !isKnown localT g)) := by
    unfold update_gossip_table
    rw [hfold]
  have hperm : (update_gossip_table localT incoming).table.Perm
      (localT.map (updBy incoming)
        ++ incoming.filter (fun g => !isKnown localT g)) := by
    rw [htable]
    exact List.perm_insertionSort _ _
  refine ⟨?_, ?_, ?_, ?_, ?_, ?_, ?_, ?_⟩
  · rw [htable]
    exact List.sorted_insertionSort nodeIdLe _
  · have hu := uniqueIds_merged localT incoming hL hI
    unfold UniqueIds at hu ⊢
    exact (List.Perm.pairwise_iff (fun h he => h he.symm) hperm).mpr hu
  · intro g hg hunk
    rw [hperm.mem_iff]
    apply List.mem_append_right
    exact List.mem_filter.mpr ⟨hg, by simp [hunk]⟩
  · intro g hg l hl hid
    have hfind : incoming.find? (fun x => x.node_id = l.node_id) = some g :=
      find?_id_unique incoming hI g hg l.node_id hid.symm
    have hupd : updBy incoming l = applyHeartbeat g l := by
      unfold updBy
      rw [hfind]
    have hmem : applyHeartbeat g l
        ∈ (update_gossip_table localT incoming).table := by
      rw [hperm.mem_iff]
      apply List.mem_append_left
      rw [← hupd]
      exact List.mem_map_of_mem (updBy incoming) hl
    constructor
    · intro hlt
      have : applyHeartbeat g l = ({ l with last_heartbeat := g.last_heartbeat, status := g.status } : GossipInformation) := by
        unfold applyHeartbeat
        rw [if_pos hlt]
      rw [← this]
      exact hmem
    · intro hge
      have : applyHeartbeat g l = l := by
        unfold applyHeartbeat
        rw [if_neg hge]
      rw [← this]
      exact hmem
  · intro l hl hunk
    have hupd : updBy incoming l = l := by
      apply updBy_self_of_absent
      exact (isKnown_false_iff incoming l).mp hunk
    rw [hperm.mem_iff]
    apply List.mem_append_left
    rw [← hupd]
    exact List.mem_map_of_mem (updBy incoming) hl
  · unfold update_gossip_table
    rw [hfold]
    simp
  · intro g
    unfold hintTriggered
    cases hf : localT.find? (fun x => x.node_id = g.node_id) with
    | none =>
      simp only [Bool.false_eq_true, false_iff]
      rintro ⟨l, hl, hid, _⟩
      exact absurd ((List.find?_eq_none.mp hf) l hl) (by simp [hid])
    | some l₀ =>
      rw [hintCond_iff]
      constructor
      · rintro ⟨hhb, hd, hlive⟩
        refine ⟨l₀, List.mem_of_find?_eq_some hf, ?_, hhb, hd, hlive⟩
        have := List.find?_some hf
        simpa using this
      · rintro ⟨l, hl, hid, hhb, hd, hlive⟩
        have : localT.find? (fun x => x.node_id = g.node_id) = some l :=
          find?_id_unique localT hL l hl g.node_id hid
        rw [hf] at this
        obtain rfl : l₀ = l := by injection this
        exact ⟨hhb, hd, hlive⟩
  · unfold update_gossip_table
    rw [hfold]
    simp

/-- A dead local entry for concrete merge scenarios. -/
def gossipDeadA : GossipInformation :=
  ⟨"NodeA", "10.0.0.1", "9042", "7001", 5, "Dead"⟩

/-- The same node reported live with a newer heartbeat. -/
def gossipLiveA : GossipInformation :=
  ⟨"NodeA", "10.0.0.1", "9042", "7001", 10, "Live"⟩

/-- A node unknown to the local table. -/
def gossipNewC : GossipInformation :=
  ⟨"NodeC", "10.0.0.3", "9042", "7003", 3, "Live"⟩

/-- Witness for C6: merging `[NodeA live@10, NodeC]` into `[NodeA dead@5]`
satisfies the merge contract (overwrite, hint replay for NodeA, append of
NodeC, sortedness and uniqueness). -/
theorem claim_c6_gossip_merge_witness :
    List.Sorted nodeIdLe
      (update_gossip_table [gossipDeadA] [gossipLiveA, gossipNewC]).table
    ∧ UniqueIds
        (update_gossip_table [gossipDeadA] [gossipLiveA, gossipNewC]).table
    ∧ (∀ g ∈ [gossipLiveA, gossipNewC], isKnown [gossipDeadA] g = false →
        g ∈ (update_gossip_table [gossipDeadA]
              [gossipLiveA, gossipNewC]).table)
    ∧ (∀ g ∈ [gossipLiveA, gossipNewC], ∀ l ∈ [gossipDeadA],
        l.node_id = g.node_id →
        (l.last_heartbeat < g.last_heartbeat →
          ({ l with last_heartbeat := g.last_heartbeat, status := g.status } : GossipInformation)
            ∈ (update_gossip_table [gossipDeadA]
                [gossipLiveA, gossipNewC]).table)
        ∧ (¬ l.last_heartbeat < g.last_heartbeat →
            l ∈ (update_gossip_table [gossipDeadA]
                  [gossipLiveA, gossipNewC]).table))
    ∧ (∀ l ∈ [gossipDeadA], isKnown [gossipLiveA, gossipNewC] l = false →
        l ∈ (update_gossip_table [gossipDeadA]
              [gossipLiveA, gossipNewC]).table)
    ∧ (update_gossip_table [gossipDeadA] [gossipLiveA, gossipNewC]).hints
        = (([gossipLiveA, gossipNewC].filter
            (fun g => hintTriggered [gossipDeadA] g)).map
              (fun g => g.node_id))
    ∧ (∀ g, hintTriggered [gossipDeadA] g = true
        ↔ ∃ l ∈ [gossipDeadA], l.node_id = g.node_id
            ∧ l.last_heartbeat < g.last_heartbeat
            ∧ l.status = "Dead" ∧ g.status = "Live")
    ∧ (update_gossip_table [gossipDeadA] [gossipLiveA, gossipNewC]).newNodes
        = [gossipLiveA, gossipNewC].filter
            (fun g => !isKnown [gossipDeadA] g) :=
  claim_c6_gossip_merge [gossipDeadA] [gossipLiveA, gossipNewC]
    (by unfold UniqueIds; decide) (by unfold UniqueIds; decide)

/-! ## Hinted handoff drain

From `src/cassandra_node/src/node.rs`, `Node::send_hints` (lines 474-513).
Hints are `InternalMessage` values compared with `PartialEq`; they are
modelled as an arbitrary type with decidable equality.  The delivery attempt
for the hint at queue position `i` (TCP connect plus frame write) succeeds
iff `outcomes[i]` is `true`. -/

/-- The `hints_successful` vector of `send_hints` (`node.rs`, lines 489-505):
the hints whose delivery attempt succeeded, in queue order. -/
def hintsSuccessful {α : Type} (queue : List α) (outcomes : List Bool) :
    List α :=
  ((queue.zip outcomes).filter (fun p => p.2)).map (fun p => p.1)

/-- The hints whose delivery attempt failed, in queue order. -/
def hintsFailed {α : Type} (queue : List α) (outcomes : List Bool) : List α :=
  ((queue.zip outcomes).filter (fun p => !p.2)).map (fun p => p.1)

/-- `Node::send_hints` (`node.rs`, lines 474-513): attempt every hint in
queue order, then remove, for each successfully delivered hint value, the
first equal occurrence from the queue (`position(|x| *x == hint)` followed by
`remove(index)`).  Returns the queue left behind. -/
def send_hints {α : Type} [DecidableEq α] (queue : List α)
    (outcomes : List Bool) : List α :=
  (hintsSuccessful queue outcomes).foldl (fun q h => q.erase h) queue

theorem foldl_erase_eq_diff {α : Type} [DecidableEq α] (hs : List α) :
    ∀ (q : List α), hs.foldl (fun q h => q.erase h) q = q.diff hs := by
  induction hs with
  | nil => intro q; simp
  | cons h hs ih =>
    intro q
    rw [List.foldl_cons, ih (q.erase h), List.diff_cons]

theorem hintsSuccessful_cons_true {α : Type} (x : α) (q : List α)
    (o : List Bool) :
    hintsSuccessful (x :: q) (true :: o) = x :: hintsSuccessful q o := by
  simp [hintsSuccessful]

theorem hintsSuccessful_cons_false {α : Type} (x : α) (q : List α)
    (o : List Bool) :
    hintsSuccessful (x :: q) (false :: o) = hintsSuccessful q o := by
  simp [hintsSuccessful]

theorem hintsFailed_cons_true {α : Type} (x : α) (q : List α)
    (o : List Bool) :
    hintsFailed (x :: q) (true :: o) = hintsFailed q o := by
  simp [hintsFailed]

theorem hintsFailed_cons_false {α : Type} (x : α) (q : List α)
    (o : List Bool) :
    hintsFailed (x :: q) (false :: o) = x :: hintsFailed q o := by
  simp [hintsFailed]

theorem mem_hintsSuccessful {α : Type} {x : α} {q : List α}
    {o : List Bool} (h : x ∈ hintsSuccessful q o) : x ∈ q := by
  unfold hintsSuccessful at h
  obtain ⟨⟨a, b⟩, hab, rfl⟩ := List.mem_map.mp h
  exact (List.of_mem_zip (List.mem_of_mem_filter hab)).1

/-- Over a full outcome vector, the queue is a permutation of the successes
followed by the failures. -/
theorem perm_successful_failed {α : Type} (q : List α) (o : List Bool)
    (hlen : o.length = q.length) :
    q.Perm (hintsSuccessful q o ++ hintsFailed q o) := by
  induction q generalizing o with
  | nil => simp [hintsSuccessful, hintsFailed]
  | cons x q ih =>
    cases o with
    | nil => simp at hlen
    | cons b o =>
      have hlen2 : o.length = q.length := by simpa using hlen
      cases b with
      | true =>
        rw [hintsSuccessful_cons_true, hintsFailed_cons_true,
          List.cons_append]
        exact (ih o hlen2).cons x
      | false =>
        rw [hintsSuccessful_cons_false, hintsFailed_cons_false]
        exact ((ih o hlen2).cons x).trans List.perm_middle.symm

theorem append_diff_self {α : Type} [DecidableEq α] (s f : List α) :
    (s ++ f).diff s = f := by
  induction s with
  | nil => simp
  | cons a s ih =>
    rw [List.cons_append, List.diff_cons, List.erase_cons_head]
    exact ih

theorem filter_not_mem_successful_eq_failed {α : Type} [DecidableEq α]
    (q : List α) (o : List Bool) (hlen : o.length = q.length)
    (hnd : q.Nodup) :
    q.filter (fun x => decide (x ∉ hintsSuccessful q o))
      = hintsFailed q o := by
  induction q generalizing o with
  | nil => simp [hintsFailed]
  | cons x q ih =>
    have hnd2 : q.Nodup := hnd.of_cons
    have hxq : x ∉ q := (List.nodup_cons.mp hnd).1
    cases o with
    | nil => simp at hlen
    | cons b o =>
      have hlen2 : o.length = q.length := by simpa using hlen
      cases b with
      | true =>
        rw [hintsSuccessful_cons_true, hintsFailed_cons_true,
          List.filter_cons]
        rw [if_neg (by simp)]
        rw [← ih o hlen2 hnd2]
        apply List.filter_congr
        intro y hy
        have hyx : y ≠ x := fun h => hxq (h ▸ hy)
        simp [hyx]
      | false =>
        rw [hintsSuccessful_cons_false, hintsFailed_cons_false,
          List.filter_cons]
        have hxs : x ∉ hintsSuccessful q o :=
          fun h => hxq (mem_hintsSuccessful h)
        rw [if_pos (by simp [hxs])]
        rw [ih o hlen2 hnd2]

/-- Counterexample to C7: with the queue `[m0, m1, m0, m1]` (the same two
hint values each buffered twice) and delivery outcomes
`[ok, fail, fail, ok]`, the drain leaves `[m0, m1]` — removal always deletes
the *first* equal occurrence — while the hints whose delivery failed, in
their original relative order, are `[m1, m0]`.  The remaining queue is not
the failed hints in original order. -/
theorem claim_c7_counterexample :
    send_hints [0, 1, 0, 1] [true, false, false, true] = ([0, 1] : List Nat)
    ∧ hintsFailed [0, 1, 0, 1] [true, false, false, true]
        = ([1, 0] : List Nat)
    ∧ send_hints [0, 1, 0, 1] [true, false, false, true]
        ≠ hintsFailed [0, 1, 0, 1] [true, false, false, true] :=
  ⟨by decide, by decide, by decide⟩

/-- C7 (amended): draining a hint queue attempts every hint in queue order;
afterwards the queue is a subsequence of the original whose multiset is
exactly the multiset of hints whose delivery failed (every successfully
delivered hint value has been removed once), and when the queue contains no
duplicate hint values it is exactly the failed hints in their original
relative order. -/
theorem claim_c7_hint_drain {α : Type} [DecidableEq α] (queue : List α)
    (outcomes : List Bool) (hlen : outcomes.length = queue.length) :
    (send_hints queue outcomes).Sublist queue
    ∧ (send_hints queue outcomes).Perm (hintsFailed queue outcomes)
    ∧ (queue.Nodup →
        send_hints queue outcomes = hintsFailed queue outcomes) := by
  have hdiff : send_hints queue outcomes
      = queue.diff (hintsSuccessful queue outcomes) :=
    foldl_erase_eq_diff _ queue
  refine ⟨?_, ?_, ?_⟩
  · rw [hdiff]
    exact List.diff_sublist _ _
  · rw [hdiff]
    have hperm := perm_successful_failed queue outcomes hlen
    have h2 := List.Perm.diff_right (hintsSuccessful queue outcomes) hperm
    rw [append_diff_self] at h2
    exact h2
  · intro hnd
    rw [hdiff, List.Nodup.diff_eq_filter hnd]
    exact filter_not_mem_successful_eq_failed queue outcomes hlen hnd

/-- Witness for the amended C7: a three-hint queue with outcomes
`[ok, fail, ok]` drains to exactly the failed hint. -/
theorem claim_c7_hint_drain_witness :
    (send_hints [10, 20, 30] [true, false, true]).Sublist [10, 20, 30]
    ∧ (send_hints [10, 20, 30] [true, false, true]).Perm
        (hintsFailed [10, 20, 30] [true, false, true])
    ∧ (([10, 20, 30] : List Nat).Nodup →
        send_hints [10, 20, 30] [true, false, true]
          = hintsFailed [10, 20, 30] [true, false, true]) :=
  claim_c7_hint_drain [10, 20, 30] [true, false, true] rfl

/-! ## Partitioned table

From `src/cassandra_node/src/encrypted_table/table.rs`.  Rust `String`s are
modelled as their UTF-8 byte sequences (`ByteStr := List Nat`); the
`HashMap<String, String>` rows and the `HashMap<Vec<String>, Partition>`
partition map become association lists; the `BTreeMap` of rows becomes an
association list the insertion routine keeps sorted by the Rust ordering on
`Vec<String>` keys. -/

/-- A Rust `String` as its byte sequence. -/
abbrev ByteStr := List Nat

/-- A row: `HashMap<String, String>` as an association list (first binding
wins on lookup). -/
abbrev TRow := List (ByteStr × ByteStr)

/-- `HashMap::get` on a row. -/
def trowGet (row : TRow) (k : ByteStr) : Option ByteStr :=
  (row.find? (fun p => p.1 = k)).map (fun p => p.2)

/-- Byte-wise lexicographic `<` on Rust `String`s. -/
def byteStrLt : ByteStr → ByteStr → Bool
  | [], [] => false
  | [], _ :: _ => true
  | _ :: _, [] => false
  | a :: as, b :: bs =>
    if a < b then true else if b < a then false else byteStrLt as bs

/-- Lexicographic `<` on `Vec<String>` keys (the `BTreeMap` key order). -/
def keyListLt : List ByteStr → List ByteStr → Bool
  | [], [] => false
  | [], _ :: _ => true
  | _ :: _, [] => false
  | a :: as, b :: bs =>
    if byteStrLt a b then true else if byteStrLt b a then false
    else keyListLt as bs

/-- `BTreeMap::insert`: replace the row at an existing key, otherwise insert
at the sorted position. -/
def btreeInsert (k : List ByteStr) (v : TRow) :
    List (List ByteStr × TRow) → List (List ByteStr × TRow)
  | [] => [(k, v)]
  | (k2, v2) :: rest =>
    if k = k2 then (k, v) :: rest
    else if keyListLt k k2 then (k, v) :: (k2, v2) :: rest
    else (k2, v2) :: btreeInsert k v rest

/-- `BTreeMap::get` on the row map. -/
def rowsLookup (rows : List (List ByteStr × TRow)) (k : List ByteStr) :
    Option TRow :=
  (rows.find? (fun p => p.1 = k)).map (fun p => p.2)

/-- `Partition` (`table.rs`, lines 21-28). -/
structure Partition where
  clustering_key_columns : List ByteStr
  rows : List (List ByteStr × TRow)
deriving DecidableEq, Repr

/-- `Table` (`table.rs`, lines 8-16). -/
structure Table where
  table_name : ByteStr
  partition_key_columns : List ByteStr
  clustering_key_columns : List ByteStr
  columns : List (ByteStr × ByteStr)
  partitions : List (List ByteStr × Partition)
deriving DecidableEq, Repr

/-- The distinct error classes of `Table::insert` / `Partition::insert`
(`table.rs`: `"Column {} does not exist"`, `"Partition key {} is missing"`,
`"Clustering key {} is missing"`). -/
inductive TableError where
  | unknownColumn (c : ByteStr)
  | missingPartitionKey (c : ByteStr)
  | missingClusteringKey (c : ByteStr)
deriving DecidableEq, Repr

/-- The key-extraction loops of `Table::insert` (partition keys, lines
90-99) and `Partition::insert` (clustering keys, lines 453-465): collect the
row's value for each key column in order, failing on the first absent
column. -/
def extractKeyValues (cols : List ByteStr) (row : TRow) :
    Except ByteStr (List ByteStr) :=
  match cols with
  | [] => Except.ok []
  | c :: rest =>
    match trowGet row c with
    | some v =>
      match extractKeyValues rest row with
      | Except.ok vs => Except.ok (v :: vs)
      | Except.error e => Except.error e
    | none => Except.error c

/-- `Partition::insert` (`table.rs`, lines 452-468). -/
def Partition.insert (p : Partition) (row : TRow) :
    Except TableError Partition :=
  match extractKeyValues p.clustering_key_columns row with
  | Except.error c => Except.error (TableError.missingClusteringKey c)
  | Except.ok cks =>
    Except.ok { p with rows := btreeInsert cks row p.rows }

/-- `HashMap::get` on the partition map. -/
def plistGet (ps : List (List ByteStr × Partition)) (k : List ByteStr) :
    Option Partition :=
  (ps.find? (fun p => p.1 = k)).map (fun p => p.2)

/-- In-place update of the partition `get_mut` returned. -/
def plistSet (ps : List (List ByteStr × Partition)) (k : List ByteStr)
    (v : Partition) : List (List ByteStr × Partition) :=
  match ps with
  | [] => []
  | (k2, v2) :: rest =>
    if k2 = k then (k2, v) :: rest else (k2, v2) :: plistSet rest k v

/-- `Table::insert` (`table.rs`, lines 84-112): reject the first row column
absent from the schema, then extract the partition keys (failing on the
first absent one), then insert into the existing partition or lazily create
a new one. -/
def Table.insert (t : Table) (row : TRow) : Except TableError Table :=
  match row.find? (fun p => !(t.columns.any (fun c => c.1 = p.1))) with
  | some p => Except.error (TableError.unknownColumn p.1)
  | none =>
    match extractKeyValues t.partition_key_columns row with
    | Except.error c => Except.error (TableError.missingPartitionKey c)
    | Except.ok pks =>
      match plistGet t.partitions pks with
      | some partition =>
        match partition.insert row with
        | Except.error e => Except.error e
        | Except.ok p2 =>
          Except.ok { t with partitions := plistSet t.partitions pks p2 }
      | none =>
        match (Partition.mk t.clustering_key_columns []).insert row with
        | Except.error e => Except.error e
        | Except.ok p2 =>
          Except.ok { t with partitions := t.partitions ++ [(pks, p2)] }

theorem rowsLookup_btreeInsert (k : List ByteStr) (v : TRow) :
    ∀ rows, rowsLookup (btreeInsert k v rows) k = some v := by
  intro rows
  induction rows with
  | nil => simp [btreeInsert, rowsLookup]
  | cons p rest ih =>
    obtain ⟨k2, v2⟩ := p
    by_cases hk : k = k2
    · simp [btreeInsert, hk, rowsLookup]
    · by_cases hlt : keyListLt k k2 = true
      · simp [btreeInsert, hk, hlt, rowsLookup]
      · have hk2 : ¬ k2 = k := fun h => hk h.symm
        simp only [btreeInsert, if_neg hk, if_neg hlt]
        unfold rowsLookup
        rw [List.find?_cons_of_neg _ (by simp [hk2])]
        exact ih

theorem plistGet_set (k : List ByteStr) (v : Partition) :
    ∀ ps, plistGet ps k ≠ none → plistGet (plistSet ps k v) k = some v := by
  intro ps
  induction ps with
  | nil => intro h; exact absurd rfl h
  | cons p rest ih =>
    obtain ⟨k2, v2⟩ := p
    intro h
    by_cases hk : k2 = k
    · simp [plistSet, hk, plistGet]
    · simp only [plistSet, if_neg hk]
      unfold plistGet at h ⊢
      rw [List.find?_cons_of_neg _ (by simp [hk])] at h
      rw [List.find?_cons_of_neg _ (by simp [hk])]
      exact ih h

theorem plistGet_mem (ps : List (List ByteStr × Partition))
    (k : List ByteStr) (v : Partition) (h : plistGet ps k = some v) :
    (k, v) ∈ ps := by
  unfold plistGet at h
  cases hf : ps.find? (fun p => p.1 = k) with
  | none => rw [hf] at h; simp at h
  | some q =>
    rw [hf] at h
    have hq : q.1 = k := by
      have := List.find?_some hf
      simpa using this
    have hv : q.2 = v := by simpa using h
    have : q = (k, v) := by
      obtain ⟨q1, q2⟩ := q
      simp only at hq hv
      rw [hq, hv]
    rw [← this]
    exact List.mem_of_find?_eq_some hf

theorem plistGet_append_right (ps : List (List ByteStr × Partition))
    (k : List ByteStr) (v : Partition) (h : plistGet ps k = none) :
    plistGet (ps ++ [(k, v)]) k = some v := by
  induction ps with
  | nil => simp [plistGet]
  | cons p rest ih =>
    obtain ⟨k2, v2⟩ := p
    unfold plistGet at h ⊢
    by_cases hk : k2 = k
    · rw [List.find?_cons_of_pos _ (by simp [hk])] at h
      simp at h
    · rw [List.find?_cons_of_neg _ (by simp [hk])] at h
      rw [List.cons_append, List.find?_cons_of_neg _ (by simp [hk])]
      exact ih h

theorem extract_error_of_missing (row : TRow) :
    ∀ cols : List ByteStr, (∃ c ∈ cols, trowGet row c = none) →
    ∃ c, c ∈ cols ∧ trowGet row c = none
      ∧ extractKeyValues cols row = Except.error c := by
  intro cols
  induction cols with
  | nil => rintro ⟨c, hc, _⟩; simp at hc
  | cons c rest ih =>
    rintro ⟨c0, hc0, habs⟩
    cases hg : trowGet row c with
    | none =>
      exact ⟨c, List.mem_cons_self c rest, hg, by simp [extractKeyValues, hg]⟩
    | some v =>
      have hc0r : c0 ∈ rest := by
        rcases List.mem_cons.mp hc0 with h | h
        · subst h; rw [hg] at habs; simp at habs
        · exact h
      obtain ⟨c2, hc2, habs2, herr⟩ := ih ⟨c0, hc0r, habs⟩
      exact ⟨c2, List.mem_cons_of_mem c hc2, habs2,
        by simp [extractKeyValues, hg, herr]⟩

/-- The concrete schema for the C3 counterexample: partition key `k`,
clustering key `o`, value column `d`, plus the implicit timestamp column. -/
def tblC3 : Table :=
  ⟨[116], [[107]], [[111]],
   [([107], [9]), ([111], [9]), ([100], [9]), ([95], [9])], []⟩

/-- Counterexample to C3: a row that both misses the partition-key column
`k` and carries the unknown column `z` fails with the unknown-column error,
not the missing-partition-key error the claim requires for every row whose
partition key is absent — the unknown-column check runs first. -/
theorem claim_c3_counterexample :
    trowGet [([122], [49])] [107] = none
    ∧ (∃ c, Table.insert tblC3 [([122], [49])]
        = Except.error (TableError.unknownColumn c))
    ∧ (∀ c, Table.insert tblC3 [([122], [49])]
        ≠ Except.error (TableError.missingPartitionKey c)) := by
  refine ⟨rfl, ⟨[122], rfl⟩, fun c h => ?_⟩
  exact TableError.noConfusion (Except.error.inj h)

/-- C3 (amended): `Table::insert` applies its checks in the order
unknown-column, missing-partition-key, missing-clustering-key — each later
failure fires only when the earlier checks pass:
(a) a row column absent from the schema fails with the unknown-column error;
(b) with all columns known, an absent partition-key column fails with the
missing-partition-key error;
(c) with all columns known and all partition keys present, an absent
clustering-key column fails with the missing-clustering-key error
(for a well-formed table, whose partitions carry the table's clustering-key
columns);
(d) when every check passes, the row is stored under its
(partition-key values, clustering-key values) — overwriting in full any row
already at that key — and a partition for a new partition-key vector is
created lazily, holding exactly the new row. -/
theorem claim_c3_insert_contract (t : Table) (row : TRow) :
    ((∃ p ∈ row, ∀ c ∈ t.columns, c.1 ≠ p.1) →
      ∃ cname, Table.insert t row
        = Except.error (TableError.unknownColumn cname))
    ∧ ((∀ p ∈ row, ∃ c ∈ t.columns, c.1 = p.1) →
      (∃ c ∈ t.partition_key_columns, trowGet row c = none) →
      ∃ c, c ∈ t.partition_key_columns ∧ trowGet row c = none
        ∧ Table.insert t row
            = Except.error (TableError.missingPartitionKey c))
    ∧ ((∀ p ∈ row, ∃ c ∈ t.columns, c.1 = p.1) →
      (∀ kp ∈ t.partitions,
        kp.2.clustering_key_columns = t.clustering_key_columns) →
      (∃ pks, extractKeyValues t.partition_key_columns row
          = Except.ok pks) →
      (∃ c ∈ t.clustering_key_columns, trowGet row c = none) →
      ∃ c, c ∈ t.clustering_key_columns ∧ trowGet row c = none
        ∧ Table.insert t row
            = Except.error (TableError.missingClusteringKey c))
    ∧ (∀ pks cks, (∀ p ∈ row, ∃ c ∈ t.columns, c.1 = p.1) →
      (∀ kp ∈ t.partitions,
        kp.2.clustering_key_columns = t.clustering_key_columns) →
      extractKeyValues t.partition_key_columns row = Except.ok pks →
      extractKeyValues t.clustering_key_columns row = Except.ok cks →
      ∃ t2, Table.insert t row = Except.ok t2
        ∧ (∀ p2, plistGet t2.partitions pks = some p2 →
            rowsLookup p2.rows cks = some row)
        ∧ (plistGet t.partitions pks = none →
            t2.partitions = t.partitions
              ++ [(pks, ⟨t.clustering_key_columns, [(cks, row)]⟩)])) := by
  have hfind_none :
      (∀ p ∈ row, ∃ c ∈ t.columns, c.1 = p.1) →
      row.find? (fun p => !(t.columns.any (fun c => c.1 = p.1))) = none := by
    intro hnou
    rw [List.find?_eq_none]
    intro p hp
    obtain ⟨c, hc, hcc⟩ := hnou p hp
    have hany : (t.columns.any fun c => decide (c.1 = p.1)) = true :=
      List.any_eq_true.mpr ⟨c, hc, by simp [hcc]⟩
    simp [hany]
  refine ⟨?_, ?_, ?_, ?_⟩
  · rintro ⟨p, hp, hunk⟩
    have : (row.find? (fun p => !(t.columns.any (fun c => c.1 = p.1)))).isSome
        = true := by
      rw [List.find?_isSome]
      refine ⟨p, hp, ?_⟩
      simp only [Bool.not_eq_true', List.any_eq_false]
      intro c hc
      simp [hunk c hc]
    cases hf : row.find? (fun p => !(t.columns.any (fun c => c.1 = p.1))) with
    | none => rw [hf] at this; simp at this
    | some p0 =>
      exact ⟨p0.1, by unfold Table.insert; rw [hf]⟩
  · intro hnou hmiss
    obtain ⟨c, hc, habs, herr⟩ :=
      extract_error_of_missing row t.partition_key_columns hmiss
    exact ⟨c, hc, habs, by unfold Table.insert; rw [hfind_none hnou, herr]⟩
  · intro hnou hwf hpk hmiss
    obtain ⟨pks, hpks⟩ := hpk
    obtain ⟨c, hc, habs, herr⟩ :=
      extract_error_of_missing row t.clustering_key_columns hmiss
    refine ⟨c, hc, habs, ?_⟩
    cases hpart : plistGet t.partitions pks with
    | some p0 =>
      have hck : p0.clustering_key_columns = t.clustering_key_columns :=
        hwf (pks, p0) (plistGet_mem _ _ _ hpart)
      have hpi : Partition.insert p0 row
          = Except.error (TableError.missingClusteringKey c) := by
        unfold Partition.insert
        rw [hck, herr]
      simp [Table.insert, hfind_none hnou, hpks, hpart, hpi]
    | none =>
      have hpi : Partition.insert ⟨t.clustering_key_columns, []⟩ row
          = Except.error (TableError.missingClusteringKey c) := by
        simp [Partition.insert, herr]
      simp [Table.insert, hfind_none hnou, hpks, hpart, hpi]
  · intro pks cks hnou hwf hpks hcks
    cases hpart : plistGet t.partitions pks with
    | some p0 =>
      have hck : p0.clustering_key_columns = t.clustering_key_columns :=
        hwf (pks, p0) (plistGet_mem _ _ _ hpart)
      have hpi : Partition.insert p0 row
          = Except.ok ⟨p0.clustering_key_columns,
              btreeInsert cks row p0.rows⟩ := by
        unfold Partition.insert
        rw [hck, hcks]
      refine ⟨{ t with partitions := plistSet t.partitions pks ⟨p0.clustering_key_columns, btreeInsert cks row p0.rows⟩ }, ?_, ?_, ?_⟩
      · simp [Table.insert, hfind_none hnou, hpks, hpart, hpi]
      · intro p2 hp2
        have hsome : plistGet (plistSet t.partitions pks
            ⟨p0.clustering_key_columns, btreeInsert cks row p0.rows⟩) pks
            = some ⟨p0.clustering_key_columns,
                btreeInsert cks row p0.rows⟩ := by
          apply plistGet_set
          rw [hpart]
          simp
        simp only at hp2
        rw [hsome] at hp2
        obtain rfl : p2 = ⟨p0.clustering_key_columns,
            btreeInsert cks row p0.rows⟩ := by
          injection hp2 with h
          exact h.symm
        exact rowsLookup_btreeInsert cks row p0.rows
      · intro hnone
        simp at hnone
    | none =>
      have hpi : Partition.insert ⟨t.clustering_key_columns, []⟩ row
          = Except.ok ⟨t.clustering_key_columns, [(cks, row)]⟩ := by
        simp [Partition.insert, hcks, btreeInsert]
      refine ⟨{ t with partitions := t.partitions ++ [(pks, ⟨t.clustering_key_columns, [(cks, row)]⟩)] }, ?_, ?_, ?_⟩
      · simp [Table.insert, hfind_none hnou, hpks, hpart, hpi]
      · intro p2 hp2
        have hsome := plistGet_append_right t.partitions pks
          ⟨t.clustering_key_columns, [(cks, row)]⟩ hpart
        simp only at hp2
        rw [hsome] at hp2
        obtain rfl : p2 = ⟨t.clustering_key_columns, [(cks, row)]⟩ := by
          injection hp2 with h
          exact h.symm
        simp [rowsLookup]
      · intro _
        rfl

/-- A concrete table (one partition, one row) for the C3 witness. -/
def tblW : Table :=
  ⟨[116], [[107]], [[99]],
   [([107], [9]), ([99], [9]), ([118], [9]), ([95], [9])],
   [([[49]], ⟨[[99]], [([[50]], [([107], [49]), ([99], [50]), ([118], [97])])]⟩)]⟩

/-- A row with the same partition and clustering keys as the stored row but
a different value column. -/
def rowW : TRow := [([107], [49]), ([99], [50]), ([118], [98])]

/-- Witness for the amended C3: inserting a row with the keys of an existing
row succeeds and the stored row at that key is the new row in full. -/
theorem claim_c3_insert_contract_witness :
    ∃ t2, Table.insert tblW rowW = Except.ok t2
      ∧ (∀ p2, plistGet t2.partitions [[49]] = some p2 →
          rowsLookup p2.rows [[50]] = some rowW)
      ∧ (plistGet tblW.partitions [[49]] = none →
          t2.partitions = tblW.partitions
            ++ [([[49]], ⟨tblW.clustering_key_columns, [([[50]], rowW)]⟩)]) :=
  (claim_c3_insert_contract tblW rowW).2.2.2 [[49]] [[50]]
    (by decide) (by decide) rfl rfl

/-! ## Table serialization

From `src/cassandra_node/src/encrypted_table/serde_table.rs`.  All counts
and lengths are written as big-endian `u16` (`value.len() as u16` truncates
modulo `2^16`); the content bytes pass through uninterpreted.  The reader is
a cursor over the remaining byte list; `io::Result` becomes `Except`. -/

/-- `write_short` (`serde_table.rs`, lines 57-59), including the `as u16`
truncation performed at every call site. -/
def writeShort (v : Nat) : List Nat :=
  [v % 65536 / 256, v % 65536 % 256]

/-- `write_string` (`serde_table.rs`, lines 62-66). -/
def writeString (s : ByteStr) : List Nat :=
  writeShort s.length ++ s

/-- `write_string_list` (`serde_table.rs`, lines 68-74). -/
def writeStringList (l : List ByteStr) : List Nat :=
  writeShort l.length ++ (l.map writeString).flatten

/-- `write_string_map` (`serde_table.rs`, lines 77-84). -/
def writeStringMap (l : List (ByteStr × ByteStr)) : List Nat :=
  writeShort l.length
    ++ (l.map (fun p => writeString p.1 ++ writeString p.2)).flatten

/-- `write_partition` (`serde_table.rs`, lines 87-104). -/
def writePartition (p : Partition) : List Nat :=
  writeStringList p.clustering_key_columns
    ++ writeShort p.rows.length
    ++ (p.rows.map (fun r => writeStringList r.1 ++ writeStringMap r.2)).flatten

/-- `Table::to_bytes` (`serde_table.rs`, lines 9-26). -/
def Table.to_bytes (t : Table) : List Nat :=
  writeString t.table_name
    ++ writeStringList t.partition_key_columns
    ++ writeStringList t.clustering_key_columns
    ++ writeStringMap t.columns
    ++ writeShort t.partitions.length
    ++ (t.partitions.map
        (fun kp => writeStringList kp.1 ++ writePartition kp.2)).flatten

/-- The `?` operator on a cursor read: propagate the error, otherwise feed
the value and the advanced cursor to the continuation. -/
def rbind {a b : Type} (x : Except String (a × List Nat))
    (f : a → List Nat → Except String (b × List Nat)) :
    Except String (b × List Nat) :=
  match x with
  | Except.error e => Except.error e
  | Except.ok (v, rest) => f v rest

theorem rbind_ok {a b : Type} (v : a) (rest : List Nat)
    (f : a → List Nat → Except String (b × List Nat)) :
    rbind (Except.ok (v, rest)) f = f v rest := rfl

theorem rbind_error {a b : Type} (e : String)
    (f : a → List Nat → Except String (b × List Nat)) :
    rbind (Except.error e : Except String (a × List Nat)) f
      = (Except.error e : Except String (b × List Nat)) := rfl

/-- `read_short` (`serde_table.rs`, lines 106-110). -/
def readShort : List Nat → Except String (Nat × List Nat)
  | b1 :: b0 :: rest => Except.ok (b1 * 256 + b0, rest)
  | _ => Except.error "failed to fill whole buffer"

/-- `read_exact` into a buffer of `n` bytes. -/
def readBytes (n : Nat) (l : List Nat) : Except String (ByteStr × List Nat) :=
  if n ≤ l.length then Except.ok (l.take n, l.drop n)
  else Except.error "failed to fill whole buffer"

/-- `read_string` (`serde_table.rs`, lines 112-117). -/
def readString (l : List Nat) : Except String (ByteStr × List Nat) :=
  rbind (readShort l) readBytes

/-- The `for _ in 0..len` reading loops. -/
def readNList {a : Type}
    (read1 : List Nat → Except String (a × List Nat)) :
    Nat → List Nat → Except String (List a × List Nat)
  | 0, l => Except.ok ([], l)
  | n + 1, l =>
    rbind (read1 l) (fun x rest =>
      rbind (readNList read1 n rest) (fun xs rest2 =>
        Except.ok (x :: xs, rest2)))

/-- `read_string_list` (`serde_table.rs`, lines 119-126). -/
def readStringList (l : List Nat) :
    Except String (List ByteStr × List Nat) :=
  rbind (readShort l) (fun n rest => readNList readString n rest)

/-- One key/value pair of `read_string_map`. -/
def readPair (l : List Nat) :
    Except String ((ByteStr × ByteStr) × List Nat) :=
  rbind (readString l) (fun k rest =>
    rbind (readString rest) (fun v rest2 => Except.ok ((k, v), rest2)))

/-- `read_string_map` (`serde_table.rs`, lines 128-137). -/
def readStringMap (l : List Nat) :
    Except String (List (ByteStr × ByteStr) × List Nat) :=
  rbind (readShort l) (fun n rest => readNList readPair n rest)

/-- One row entry (clustering-key list plus row map) of `read_partition`. -/
def readRowEntry (l : List Nat) :
    Except String ((List ByteStr × TRow) × List Nat) :=
  rbind (readStringList l) (fun k rest =>
    rbind (readStringMap rest) (fun v rest2 => Except.ok ((k, v), rest2)))

/-- `read_partition` (`serde_table.rs`, lines 140-157). -/
def readPartition (l : List Nat) : Except String (Partition × List Nat) :=
  rbind (readStringList l) (fun ck rest =>
    rbind (readShort rest) (fun n rest2 =>
      rbind (readNList readRowEntry n rest2) (fun rows rest3 =>
        Except.ok (Partition.mk ck rows, rest3))))

/-- One partition entry (key list plus partition) of `from_bytes`. -/
def readPartitionEntry (l : List Nat) :
    Except String ((List ByteStr × Partition) × List Nat) :=
  rbind (readStringList l) (fun k rest =>
    rbind (readPartition rest) (fun p rest2 => Except.ok ((k, p), rest2)))

/-- The body of `Table::from_bytes`, with the final cursor position. -/
def fromBytesAux (bytes : List Nat) :
    Except String (Table × List Nat) :=
  rbind (readString bytes) (fun name r1 =>
    rbind (readStringList r1) (fun pk r2 =>
      rbind (readStringList r2) (fun ck r3 =>
        rbind (readStringMap r3) (fun cols r4 =>
          rbind (readShort r4) (fun pcount r5 =>
            rbind (readNList readPartitionEntry pcount r5)
              (fun parts rest =>
                Except.ok (Table.mk name pk ck cols parts, rest)))))))

/-- `Table::from_bytes` (`serde_table.rs`, lines 28-53).  Leftover bytes
after the partitions are ignored, as in the source. -/
def Table.from_bytes (bytes : List Nat) : Except String Table :=
  match fromBytesAux bytes with
  | Except.error e => Except.error e
  | Except.ok (t, _) => Except.ok t

/-- A string fits a 16-bit length. -/
def ValidStr (s : ByteStr) : Prop := s.length < 65536

/-- A key vector fits the 16-bit counts. -/
def ValidKey (k : List ByteStr) : Prop :=
  k.length < 65536 ∧ ∀ s ∈ k, ValidStr s

/-- A row map fits the 16-bit counts. -/
def ValidRow (r : TRow) : Prop :=
  r.length < 65536 ∧ ∀ p ∈ r, ValidStr p.1 ∧ ValidStr p.2

/-- A partition fits the 16-bit counts. -/
def ValidPartition (p : Partition) : Prop :=
  ValidKey p.clustering_key_columns ∧ p.rows.length < 65536
    ∧ ∀ r ∈ p.rows, ValidKey r.1 ∧ ValidRow r.2

/-- Every length and count of the table fits in 16 bits. -/
def ValidTable (t : Table) : Prop :=
  ValidStr t.table_name
    ∧ ValidKey t.partition_key_columns
    ∧ ValidKey t.clustering_key_columns
    ∧ ValidRow t.columns
    ∧ t.partitions.length < 65536
    ∧ ∀ kp ∈ t.partitions, ValidKey kp.1 ∧ ValidPartition kp.2

instance (s : ByteStr) : Decidable (ValidStr s) :=
  inferInstanceAs (Decidable (s.length < 65536))

instance (k : List ByteStr) : Decidable (ValidKey k) :=
  inferInstanceAs (Decidable (_ ∧ _))

instance (r : TRow) : Decidable (ValidRow r) :=
  inferInstanceAs (Decidable (_ ∧ _))

instance (p : Partition) : Decidable (ValidPartition p) :=
  inferInstanceAs (Decidable (_ ∧ _))

instance (t : Table) : Decidable (ValidTable t) :=
  inferInstanceAs (Decidable (_ ∧ _))

theorem readShort_writeShort (n : Nat) (hn : n < 65536) (rest : List Nat) :
    readShort (writeShort n ++ rest) = Except.ok (n, rest) := by
  have h : writeShort n ++ rest
      = (n % 65536 / 256) :: (n % 65536 % 256) :: rest := by
    simp [writeShort]
  rw [h]
  show Except.ok (n % 65536 / 256 * 256 + n % 65536 % 256, rest)
      = Except.ok (n, rest)
  have h2 : n % 65536 / 256 * 256 + n % 65536 % 256 = n := by
    have h3 : n % 65536 = n := Nat.mod_eq_of_lt hn
    omega
  rw [h2]

theorem readString_writeString (s : ByteStr) (hs : ValidStr s)
    (rest : List Nat) :
    readString (writeString s ++ rest) = Except.ok (s, rest) := by
  unfold writeString readString
  rw [List.append_assoc, readShort_writeShort s.length hs (s ++ rest),
    rbind_ok]
  unfold readBytes
  rw [if_pos (by simp)]
  rw [List.take_left, List.drop_left]

theorem readNList_write {a : Type}
    (read1 : List Nat → Except String (a × List Nat))
    (write1 : a → List Nat) (xs : List a)
    (hgood : ∀ x ∈ xs, ∀ r, read1 (write1 x ++ r) = Except.ok (x, r)) :
    ∀ rest, readNList read1 xs.length ((xs.map write1).flatten ++ rest)
      = Except.ok (xs, rest) := by
  induction xs with
  | nil => intro rest; simp [readNList]
  | cons x xs ih =>
    intro rest
    have hx := hgood x (List.mem_cons_self x xs)
    have hxs : ∀ y ∈ xs, ∀ r, read1 (write1 y ++ r) = Except.ok (y, r) :=
      fun y hy => hgood y (List.mem_cons_of_mem x hy)
    simp only [List.map_cons, List.flatten_cons, List.length_cons,
      List.append_assoc]
    unfold readNList
    rw [hx ((xs.map write1).flatten ++ rest), rbind_ok, ih hxs rest,
      rbind_ok]

theorem readStringList_writeStringList (k : List ByteStr) (hk : ValidKey k)
    (rest : List Nat) :
    readStringList (writeStringList k ++ rest) = Except.ok (k, rest) := by
  unfold writeStringList readStringList
  rw [List.append_assoc, readShort_writeShort k.length hk.1 _, rbind_ok]
  exact readNList_write readString writeString k
    (fun s hs r => readString_writeString s (hk.2 s hs) r) rest

theorem readPair_writePair (p : ByteStr × ByteStr) (h1 : ValidStr p.1)
    (h2 : ValidStr p.2) (rest : List Nat) :
    readPair ((writeString p.1 ++ writeString p.2) ++ rest)
      = Except.ok (p, rest) := by
  unfold readPair
  rw [List.append_assoc, readString_writeString p.1 h1 _, rbind_ok,
    readString_writeString p.2 h2 rest, rbind_ok]

theorem readStringMap_writeStringMap (m : List (ByteStr × ByteStr))
    (hm : m.length < 65536) (hall : ∀ p ∈ m, ValidStr p.1 ∧ ValidStr p.2)
    (rest : List Nat) :
    readStringMap (writeStringMap m ++ rest) = Except.ok (m, rest) := by
  unfold writeStringMap readStringMap
  rw [List.append_assoc, readShort_writeShort m.length hm _, rbind_ok]
  exact readNList_write readPair (fun p => writeString p.1 ++ writeString p.2)
    m (fun p hp r => readPair_writePair p (hall p hp).1 (hall p hp).2 r) rest

theorem readRowEntry_write (r : List ByteStr × TRow) (hk : ValidKey r.1)
    (hr : ValidRow r.2) (rest : List Nat) :
    readRowEntry ((writeStringList r.1 ++ writeStringMap r.2) ++ rest)
      = Except.ok (r, rest) := by
  unfold readRowEntry
  rw [List.append_assoc, readStringList_writeStringList r.1 hk _, rbind_ok,
    readStringMap_writeStringMap r.2 hr.1 hr.2 rest, rbind_ok]

theorem readPartition_writePartition (p : Partition) (hp : ValidPartition p)
    (rest : List Nat) :
    readPartition (writePartition p ++ rest) = Except.ok (p, rest) := by
  unfold writePartition readPartition
  rw [List.append_assoc, List.append_assoc,
    readStringList_writeStringList p.clustering_key_columns hp.1 _,
    rbind_ok, readShort_writeShort p.rows.length hp.2.1 _, rbind_ok,
    readNList_write readRowEntry
      (fun r => writeStringList r.1 ++ writeStringMap r.2) p.rows
      (fun r hr rest2 =>
        readRowEntry_write r (hp.2.2 r hr).1 (hp.2.2 r hr).2 rest2) rest,
    rbind_ok]

theorem readPartitionEntry_write (kp : List ByteStr × Partition)
    (hk : ValidKey kp.1) (hp : ValidPartition kp.2) (rest : List Nat) :
    readPartitionEntry ((writeStringList kp.1 ++ writePartition kp.2) ++ rest)
      = Except.ok (kp, rest) := by
  unfold readPartitionEntry
  rw [List.append_assoc, readStringList_writeStringList kp.1 hk _, rbind_ok,
    readPartition_writePartition kp.2 hp rest, rbind_ok]

theorem fromBytesAux_toBytes (t : Table) (h : ValidTable t)
    (rest : List Nat) :
    fromBytesAux (Table.to_bytes t ++ rest) = Except.ok (t, rest) := by
  obtain ⟨h1, h2, h3, h4, h5, h6⟩ := h
  unfold Table.to_bytes fromBytesAux
  simp only [List.append_assoc]
  rw [readString_writeString t.table_name h1 _, rbind_ok,
    readStringList_writeStringList t.partition_key_columns h2 _, rbind_ok,
    readStringList_writeStringList t.clustering_key_columns h3 _, rbind_ok,
    readStringMap_writeStringMap t.columns h4.1 h4.2 _, rbind_ok,
    readShort_writeShort t.partitions.length h5 _, rbind_ok,
    readNList_write readPartitionEntry
      (fun kp => writeStringList kp.1 ++ writePartition kp.2) t.partitions
      (fun kp hkp r =>
        readPartitionEntry_write kp (h6 kp hkp).1 (h6 kp hkp).2 r) rest,
    rbind_ok]

/-- A successful `from_bytes` run parses the table name as the first
length-prefixed string of the input. -/
theorem fromBytesAux_name (bytes : List Nat) (t : Table) (rest : List Nat)
    (h : fromBytesAux bytes = Except.ok (t, rest)) :
    ∃ r1, readString bytes = Except.ok (t.table_name, r1) := by
  unfold fromBytesAux at h
  cases h1 : readString bytes with
  | error e => rw [h1, rbind_error] at h; exact absurd h (by simp)
  | ok pr1 =>
    obtain ⟨name, r1⟩ := pr1
    rw [h1, rbind_ok] at h
    cases h2 : readStringList r1 with
    | error e => rw [h2, rbind_error] at h; exact absurd h (by simp)
    | ok pr2 =>
      obtain ⟨pk, r2⟩ := pr2
      rw [h2, rbind_ok] at h
      cases h3 : readStringList r2 with
      | error e => rw [h3, rbind_error] at h; exact absurd h (by simp)
      | ok pr3 =>
        obtain ⟨ck, r3⟩ := pr3
        rw [h3, rbind_ok] at h
        cases h4 : readStringMap r3 with
        | error e => rw [h4, rbind_error] at h; exact absurd h (by simp)
        | ok pr4 =>
          obtain ⟨cols, r4⟩ := pr4
          rw [h4, rbind_ok] at h
          cases h5 : readShort r4 with
          | error e => rw [h5, rbind_error] at h; exact absurd h (by simp)
          | ok pr5 =>
            obtain ⟨pcount, r5⟩ := pr5
            rw [h5, rbind_ok] at h
            cases h6 : readNList readPartitionEntry pcount r5 with
            | error e => rw [h6, rbind_error] at h; exact absurd h (by simp)
            | ok pr6 =>
              obtain ⟨parts, r6⟩ := pr6
              rw [h6, rbind_ok] at h
              have hh := Except.ok.inj h
              have ht : t = Table.mk name pk ck cols parts :=
                (congrArg Prod.fst hh).symm
              rw [ht]
              exact ⟨r1, rfl⟩

theorem readString_zero (x : List Nat) :
    readString ([0, 0] ++ x) = Except.ok ([], x) := by
  show rbind (readShort (0 :: 0 :: x)) readBytes = Except.ok ([], x)
  rw [show readShort (0 :: 0 :: x) = Except.ok (0, x) from rfl, rbind_ok]
  unfold readBytes
  rw [if_pos (Nat.zero_le _)]
  simp

theorem to_bytes_split (t : Table) :
    Table.to_bytes t
      = writeShort t.table_name.length
        ++ (t.table_name
          ++ (writeStringList t.partition_key_columns
            ++ (writeStringList t.clustering_key_columns
              ++ (writeStringMap t.columns
                ++ (writeShort t.partitions.length
                  ++ (t.partitions.map
                      (fun kp => writeStringList kp.1
                        ++ writePartition kp.2)).flatten))))) := by
  unfold Table.to_bytes writeString
  simp [List.append_assoc]

/-- A table whose name is 65536 bytes long: the length truncates to `0` in
the serialized form. -/
def bigT : Table := ⟨List.replicate 65536 97, [], [], [], []⟩

theorem from_bytes_aux_of_ok (bytes : List Nat) (t : Table)
    (h : Table.from_bytes bytes = Except.ok t) :
    ∃ r, fromBytesAux bytes = Except.ok (t, r) := by
  unfold Table.from_bytes at h
  cases hav : fromBytesAux bytes with
  | error e => rw [hav] at h; exact absurd h (by simp)
  | ok pr =>
    obtain ⟨t1, r⟩ := pr
    rw [hav] at h
    have ht : t1 = t := Except.ok.inj h
    subst ht
    exact ⟨r, rfl⟩

/-- Counterexample to C8: the round-trip is not the identity for every
table.  `bigT`'s 65536-byte name is written with the truncated 16-bit length
`0`, so `from_bytes` parses an empty name and can never return `bigT`. -/
theorem claim_c8_counterexample :
    Table.from_bytes (Table.to_bytes bigT) ≠ Except.ok bigT := by
  intro h
  obtain ⟨r, hav⟩ := from_bytes_aux_of_ok _ _ h
  obtain ⟨r1, hname⟩ := fromBytesAux_name _ _ _ hav
  have hzero : Table.to_bytes bigT
      = [0, 0] ++ (List.replicate 65536 97
        ++ (writeStringList bigT.partition_key_columns
          ++ (writeStringList bigT.clustering_key_columns
            ++ (writeStringMap bigT.columns
              ++ (writeShort bigT.partitions.length
                ++ (bigT.partitions.map
                    (fun kp => writeStringList kp.1
                      ++ writePartition kp.2)).flatten))))) := by
    rw [to_bytes_split bigT,
      show bigT.table_name = List.replicate 65536 97 from rfl,
      List.length_replicate,
      show writeShort 65536 = [0, 0] from rfl]
  rw [hzero, readString_zero] at hname
  have hinj := Except.ok.inj hname
  have hfst : ([] : ByteStr) = bigT.table_name := congrArg Prod.fst hinj
  have hcontr : (0 : Nat) = 65536 := by
    have hlen := congrArg List.length hfst
    rw [show bigT.table_name = List.replicate 65536 97 from rfl,
      List.length_replicate] at hlen
    exact hlen
  exact absurd hcontr (by omega)

/-- C8 (amended): `from_bytes(to_bytes(t)) = t` for every table all of whose
strings, column lists, row maps, row counts and partition counts have fewer
than `65536` elements (every length is serialized as a big-endian `u16`);
beyond that bound the written length truncates modulo `2^16` and the
round-trip fails (see the counterexample). -/
theorem claim_c8_roundtrip (t : Table) (h : ValidTable t) :
    Table.from_bytes (Table.to_bytes t) = Except.ok t := by
  unfold Table.from_bytes
  have haux := fromBytesAux_toBytes t h []
  rw [List.append_nil] at haux
  rw [haux]

/-- A small concrete table for the C8 witness. -/
def tblSer : Table :=
  ⟨[97], [[98]], [[99]], [([98], [1]), ([99], [1])],
   [([[49]], ⟨[[99]], [([[50]], [([98], [49])])]⟩)]⟩

/-- Witness for the amended C8: the round-trip is the identity on a concrete
one-partition table. -/
theorem claim_c8_roundtrip_witness :
    Table.from_bytes (Table.to_bytes tblSer) = Except.ok tblSer :=
  claim_c8_roundtrip tblSer (by decide)

/-! ### C4: read repair (`node.rs`, `Node::read_repair`, lines 971-1049) -/

/-- The mutable scan state of `read_repair`: `last_timestamp`, `last_index`,
`found_mismatch` (node.rs, lines 977-979). -/
structure ScanState where
  last_timestamp : Int
  last_index : Nat
  found_mismatch : Bool
deriving DecidableEq, Repr

/-- The timestamp a row contributes to the scan: its `_timestamp` column, if
present, run through the timestamp parser. -/
def rowTs (parseTs : String → Option Int) (row : Row) : Option Int :=
  (rowGet row "_timestamp").bind parseTs

/-- The inner row loop of `read_repair` (node.rs, lines 990-1008): a row
without a `_timestamp` column is skipped, a timestamp that fails to parse
makes the whole function return the string "Error parsing timestamp", and a
timestamp strictly greater than `last_timestamp` updates the state. -/
def scanRows (parseTs : String → Option Int) (i : Nat) :
    List Row → ScanState → Except String ScanState
  | [], st => Except.ok st
  | row :: rest, st =>
    match rowGet row "_timestamp" with
    | none => scanRows parseTs i rest st
    | some ts_str =>
      match parseTs ts_str with
      | none => Except.error "Error parsing timestamp"
      | some timestamp =>
        if st.last_timestamp < timestamp then
          scanRows parseTs i rest ⟨timestamp, i, true⟩
        else
          scanRows parseTs i rest st

/-- The outer response loop of `read_repair` (node.rs, lines 982-1009): a
response that fails to deserialize is skipped (`continue`); the rows of the
others are scanned in order. -/
def scanResponses (decodeJson : String → Option (List Row))
    (parseTs : String → Option Int) :
    List String → Nat → ScanState → Except String ScanState
  | [], _, st => Except.ok st
  | r :: rest, i, st =>
    match decodeJson r with
    | none => scanResponses decodeJson parseTs rest (i + 1) st
    | some rows =>
      match scanRows parseTs i rows st with
      | Except.error e => Except.error e
      | Except.ok st1 => scanResponses decodeJson parseTs rest (i + 1) st1

/-- The observable outcome of `read_repair`: the string returned to the
client and the list of `(node_id, INSERT body)` messages spawned in the
background. -/
structure RepairOutcome where
  client : String
  repairs : List (String × String)
deriving DecidableEq, Repr

/-- The repair phase of `read_repair` (node.rs, lines 1011-1048): when a
mismatch was found, re-deserialize the winning response (an error here is
returned to the client), take only its FIRST row (`rows.first()`), and spawn
one synthetic INSERT per replica of that row; finally return
`responses[last_index]` to the client. -/
def repairPhase (decodeJson : String → Option (List Row))
    (replicasOf : Row → List String) (genInsert : Row → String)
    (responses : List String) (st : ScanState) : RepairOutcome :=
  if st.found_mismatch then
    match decodeJson (responses.getD st.last_index "") with
    | none => ⟨"Error deserializing row", []⟩
    | some rows =>
      match rows.head? with
      | none => ⟨responses.getD st.last_index "", []⟩
      | some row =>
        ⟨responses.getD st.last_index "",
         (replicasOf row).map (fun nid => (nid, genInsert row))⟩
  else
    ⟨responses.getD st.last_index "", []⟩

/-- `Node::read_repair` (node.rs, lines 971-1049), parametrized over the
external libraries: `decodeJson` models `serde_json::from_str`, `parseTs`
models `NaiveDateTime::parse_from_str` composed with `.timestamp()`,
`replicasOf` models `get_nodes_for_insert` for the fixed keyspace and table,
and `genInsert` models `generate_insert_cql`.  (`responses[last_index]` is
modeled with `getD`; `last_index` is always in bounds for a non-empty
response list.) -/
def read_repair (decodeJson : String → Option (List Row))
    (parseTs : String → Option Int) (replicasOf : Row → List String)
    (genInsert : Row → String) (responses : List String) : RepairOutcome :=
  match scanResponses decodeJson parseTs responses 0 ⟨0, 0, false⟩ with
  | Except.error e => ⟨e, []⟩
  | Except.ok st => repairPhase decodeJson replicasOf genInsert responses st

/-- Spec-side view of the scan: the stream of `(response index, parsed
timestamp)` pairs, in scan order. -/
def tsStream (decodeJson : String → Option (List Row))
    (parseTs : String → Option Int) :
    List String → Nat → List (Nat × Int)
  | [], _ => []
  | r :: rest, i =>
    (match decodeJson r with
     | none => []
     | some rows => (rows.filterMap (rowTs parseTs)).map (fun t => (i, t)))
    ++ tsStream decodeJson parseTs rest (i + 1)

/-- One scan step as a pure fold function. -/
def stepSt (st : ScanState) (q : Nat × Int) : ScanState :=
  if st.last_timestamp < q.2 then ⟨q.2, q.1, true⟩ else st

/-- Running maximum of the timestamps of a stream. -/
def runMax (m : Int) (l : List (Nat × Int)) : Int :=
  l.foldl (fun a q => max a q.2) m

theorem le_runMax (m : Int) (l : List (Nat × Int)) : m ≤ runMax m l := by
  induction l generalizing m with
  | nil => exact le_refl m
  | cons q rest ih =>
    exact le_trans (le_max_left m q.2) (ih (max m q.2))

theorem mem_le_runMax (m : Int) (l : List (Nat × Int)) :
    ∀ q ∈ l, q.2 ≤ runMax m l := by
  induction l generalizing m with
  | nil => intro q hq; exact absurd hq (List.not_mem_nil q)
  | cons x rest ih =>
    intro q hq
    rcases List.mem_cons.mp hq with h | h
    · subst h
      exact le_trans (le_max_right m q.2) (le_runMax (max m q.2) rest)
    · exact ih (max m x.2) q h

theorem exists_mem_eq_runMax (m : Int) (l : List (Nat × Int))
    (h : m < runMax m l) : ∃ q ∈ l, q.2 = runMax m l := by
  induction l generalizing m with
  | nil => exact absurd h (lt_irrefl m)
  | cons x rest ih =>
    by_cases hx : max m x.2 < runMax (max m x.2) rest
    · obtain ⟨q, hqm, hqe⟩ := ih (max m x.2) hx
      exact ⟨q, List.mem_cons_of_mem x hqm, hqe⟩
    · have hle := le_runMax (max m x.2) rest
      have heq : runMax m (x :: rest) = max m x.2 := le_antisymm (not_lt.mp hx) hle
      rcases max_choice m x.2 with hmax | hmax
      · exfalso
        have hmm : runMax m (x :: rest) = m := heq.trans hmax
        rw [hmm] at h
        exact lt_irrefl m h
      · exact ⟨x, List.mem_cons_self x rest, (heq.trans hmax).symm⟩

theorem foldl_stepSt_char (l : List (Nat × Int)) (m : Int) (idx : Nat) (f : Bool) :
    List.foldl stepSt ⟨m, idx, f⟩ l
      = ⟨runMax m l,
         if m < runMax m l
         then ((l.find? (fun q => decide (q.2 = runMax m l))).getD (idx, 0)).1
         else idx,
         f || decide (m < runMax m l)⟩ := by
  induction l generalizing m idx f with
  | nil =>
    simp [runMax, stepSt]
  | cons x rest ih =>
    have hstep : List.foldl stepSt ⟨m, idx, f⟩ (x :: rest)
        = List.foldl stepSt (stepSt ⟨m, idx, f⟩ x) rest := rfl
    have hrm : runMax m (x :: rest) = runMax (max m x.2) rest := rfl
    by_cases hlt : m < x.2
    · have hmax : max m x.2 = x.2 := max_eq_right hlt.le
      have hone : stepSt ⟨m, idx, f⟩ x = ⟨x.2, x.1, true⟩ := by
        simp [stepSt, hlt]
      rw [hstep, hone, ih, hrm, hmax]
      have hmlt : m < runMax x.2 rest :=
        lt_of_lt_of_le hlt (le_runMax x.2 rest)
      rw [if_pos hmlt, decide_eq_true hmlt, Bool.or_true, Bool.true_or]
      by_cases h2 : x.2 < runMax x.2 rest
      · rw [if_pos h2]
        have hpx : ¬(fun (q : Nat × Int) => decide (q.2 = runMax x.2 rest)) x = true := by
          simp [ne_of_lt h2]
        rw [show List.find? (fun q => decide (q.2 = runMax x.2 rest)) (x :: rest)
            = List.find? (fun q => decide (q.2 = runMax x.2 rest)) rest from
          List.find?_cons_of_neg _ hpx]
        obtain ⟨q, hqm, hqe⟩ := exists_mem_eq_runMax x.2 rest h2
        have hsome : (rest.find? (fun q => decide (q.2 = runMax x.2 rest))).isSome := by
          rw [List.find?_isSome]
          exact ⟨q, hqm, by simp [hqe]⟩
        obtain ⟨q0, hq0⟩ := Option.isSome_iff_exists.mp hsome
        rw [hq0, Option.getD_some, Option.getD_some]
      · rw [if_neg h2]
        have hM : runMax x.2 rest = x.2 :=
          le_antisymm (not_lt.mp h2) (le_runMax x.2 rest)
        have hpx : (fun (q : Nat × Int) => decide (q.2 = runMax x.2 rest)) x = true := by
          simp [hM]
        rw [show List.find? (fun q => decide (q.2 = runMax x.2 rest)) (x :: rest)
            = some x from List.find?_cons_of_pos _ hpx, Option.getD_some]
    · have hmax : max m x.2 = m := max_eq_left (not_lt.mp hlt)
      have hone : stepSt ⟨m, idx, f⟩ x = ⟨m, idx, f⟩ := by
        simp [stepSt, hlt]
      rw [hstep, hone, ih, hrm, hmax]
      by_cases h2 : m < runMax m rest
      · rw [if_pos h2, if_pos h2]
        have hpx : ¬(fun (q : Nat × Int) => decide (q.2 = runMax m rest)) x = true := by
          have hxlt : x.2 < runMax m rest := lt_of_le_of_lt (not_lt.mp hlt) h2
          simp [ne_of_lt hxlt]
        rw [show List.find? (fun q => decide (q.2 = runMax m rest)) (x :: rest)
            = List.find? (fun q => decide (q.2 = runMax m rest)) rest from
          List.find?_cons_of_neg _ hpx]
      · rw [if_neg h2, if_neg h2]

theorem scanRows_ok (parseTs : String → Option Int) (i : Nat)
    (rows : List Row)
    (h : ∀ row ∈ rows,
      Option.all (fun ts => (parseTs ts).isSome) (rowGet row "_timestamp") = true)
    (st : ScanState) :
    scanRows parseTs i rows st
      = Except.ok (List.foldl stepSt st
          ((rows.filterMap (rowTs parseTs)).map (fun t => (i, t)))) := by
  induction rows generalizing st with
  | nil => rfl
  | cons row rest ih =>
    have hrest : ∀ r ∈ rest,
        Option.all (fun ts => (parseTs ts).isSome) (rowGet r "_timestamp") = true :=
      fun r hr => h r (List.mem_cons_of_mem row hr)
    have hhead := h row (List.mem_cons_self row rest)
    cases hts : rowGet row "_timestamp" with
    | none =>
      simp only [scanRows, hts]
      rw [ih hrest st]
      simp [List.filterMap_cons, rowTs, hts]
    | some ts_str =>
      rw [hts] at hhead
      cases hp : parseTs ts_str with
      | none => simp [Option.all, hp] at hhead
      | some timestamp =>
        simp only [scanRows, hts, hp]
        have hfm : (row :: rest).filterMap (rowTs parseTs)
            = timestamp :: rest.filterMap (rowTs parseTs) := by
          simp [List.filterMap_cons, rowTs, hts, hp]
        rw [hfm]
        simp only [List.map_cons, List.foldl_cons]
        have hone : stepSt st (i, timestamp)
            = if st.last_timestamp < timestamp then ⟨timestamp, i, true⟩ else st := rfl
        by_cases hc : st.last_timestamp < timestamp
        · rw [if_pos hc, ih hrest ⟨timestamp, i, true⟩, hone, if_pos hc]
        · rw [if_neg hc, ih hrest st, hone, if_neg hc]

theorem scanResponses_ok (decodeJson : String → Option (List Row))
    (parseTs : String → Option Int) (responses : List String)
    (h : ∀ r ∈ responses, ∀ row ∈ (decodeJson r).getD [],
      Option.all (fun ts => (parseTs ts).isSome) (rowGet row "_timestamp") = true)
    (i : Nat) (st : ScanState) :
    scanResponses decodeJson parseTs responses i st
      = Except.ok (List.foldl stepSt st (tsStream decodeJson parseTs responses i)) := by
  induction responses generalizing i st with
  | nil => rfl
  | cons r rest ih =>
    have hrest : ∀ r1 ∈ rest, ∀ row ∈ (decodeJson r1).getD [],
        Option.all (fun ts => (parseTs ts).isSome) (rowGet row "_timestamp") = true :=
      fun r1 hr1 => h r1 (List.mem_cons_of_mem r hr1)
    have hhead := h r (List.mem_cons_self r rest)
    cases hd : decodeJson r with
    | none =>
      simp only [scanResponses, hd, tsStream]
      rw [ih hrest (i + 1) st]
      rfl
    | some rows =>
      rw [hd] at hhead
      simp only [Option.getD_some] at hhead
      simp only [scanResponses, tsStream, hd,
        scanRows_ok parseTs i rows hhead st, List.foldl_append]
      exact ih hrest (i + 1) _

theorem mem_tsStream (decodeJson : String → Option (List Row))
    (parseTs : String → Option Int) (responses : List String) (i0 : Nat) :
    ∀ q ∈ tsStream decodeJson parseTs responses i0,
      i0 ≤ q.1 ∧ q.1 - i0 < responses.length
        ∧ ∃ rows, decodeJson (responses.getD (q.1 - i0) "") = some rows
        ∧ ∃ row ∈ rows, rowTs parseTs row = some q.2 := by
  induction responses generalizing i0 with
  | nil => intro q hq; exact absurd hq (List.not_mem_nil q)
  | cons r rest ih =>
    intro q hq
    simp only [tsStream] at hq
    rcases List.mem_append.mp hq with hl | hr
    · cases hd : decodeJson r with
      | none => rw [hd] at hl; exact absurd hl (List.not_mem_nil q)
      | some rows =>
        rw [hd] at hl
        obtain ⟨t, ht, hqe⟩ := List.mem_map.mp hl
        obtain ⟨row, hrow, hrowts⟩ := List.mem_filterMap.mp ht
        have hq1 : q.1 = i0 := by rw [← hqe]
        refine ⟨le_of_eq hq1.symm, ?_, ?_⟩
        · rw [hq1, Nat.sub_self]; exact Nat.succ_pos rest.length
        · rw [hq1, Nat.sub_self]
          refine ⟨rows, hd, row, hrow, ?_⟩
          rw [hrowts]
          have hq2 : q.2 = t := by rw [← hqe]
          rw [hq2]
    · obtain ⟨h1, h2, rows, hd, hrow⟩ := ih (i0 + 1) q hr
      refine ⟨le_trans (Nat.le_succ i0) h1, ?_, ?_⟩
      · have : q.1 - i0 = (q.1 - (i0 + 1)) + 1 := by omega
        rw [this]
        simpa using h2
      · have heq : q.1 - i0 = (q.1 - (i0 + 1)) + 1 := by omega
        rw [heq]
        exact ⟨rows, hd, hrow⟩

theorem read_repair_ok (decodeJson : String → Option (List Row))
    (parseTs : String → Option Int) (replicasOf : Row → List String)
    (genInsert : Row → String) (responses : List String) (st : ScanState)
    (h : scanResponses decodeJson parseTs responses 0 ⟨0, 0, false⟩ = Except.ok st) :
    read_repair decodeJson parseTs replicasOf genInsert responses
      = repairPhase decodeJson replicasOf genInsert responses st := by
  unfold read_repair
  rw [h]

/-- C4 (amended): when every `_timestamp` of every decodable response
parses, `read_repair` returns to the client `responses[i]` for the index `i`
carried by the first scan entry attaining the maximum parsed timestamp
(every parsed timestamp is bounded by that maximum); if no timestamp is
positive it returns `responses[0]` and performs no repair; otherwise the
background INSERTs carry only the FIRST row of the winning response (not
every row), one per replica of that row. -/
theorem claim_c4_read_repair (d : String → Option (List Row))
    (p : String → Option Int) (repl : Row → List String)
    (gen : Row → String) (responses : List String)
    (hne : responses ≠ [])
    (hparse : ∀ r ∈ responses, ∀ row ∈ (d r).getD [],
      Option.all (fun ts => (p ts).isSome) (rowGet row "_timestamp") = true) :
    (¬ (0 : Int) < runMax 0 (tsStream d p responses 0) →
      read_repair d p repl gen responses = ⟨responses.getD 0 "", []⟩)
    ∧ ((0 : Int) < runMax 0 (tsStream d p responses 0) →
      ∃ q, (tsStream d p responses 0).find?
            (fun x => decide (x.2 = runMax 0 (tsStream d p responses 0))) = some q
        ∧ q.1 < responses.length
        ∧ q.2 = runMax 0 (tsStream d p responses 0)
        ∧ (∀ x ∈ tsStream d p responses 0,
            x.2 ≤ runMax 0 (tsStream d p responses 0))
        ∧ ∃ rows, d (responses.getD q.1 "") = some rows
          ∧ read_repair d p repl gen responses
            = ⟨responses.getD q.1 "",
               rows.head?.elim []
                 (fun row => (repl row).map (fun nid => (nid, gen row)))⟩) := by
  have hscan := scanResponses_ok d p responses hparse 0 ⟨0, 0, false⟩
  rw [foldl_stepSt_char] at hscan
  constructor
  · intro hM
    rw [read_repair_ok d p repl gen responses _ hscan]
    have h1 : (if (0 : Int) < runMax 0 (tsStream d p responses 0)
        then ((List.find?
          (fun q => decide (q.2 = runMax 0 (tsStream d p responses 0)))
          (tsStream d p responses 0)).getD (0, 0)).1
        else 0) = 0 := if_neg hM
    have h2 : (false || decide ((0 : Int) < runMax 0 (tsStream d p responses 0)))
        = false := by simp [hM]
    rw [h1, h2]
    simp [repairPhase]
  · intro hM
    obtain ⟨q, hqm, hqe⟩ :=
      exists_mem_eq_runMax 0 (tsStream d p responses 0) hM
    have hsome : ((tsStream d p responses 0).find?
        (fun x => decide (x.2 = runMax 0 (tsStream d p responses 0)))).isSome := by
      rw [List.find?_isSome]
      exact ⟨q, hqm, by simp [hqe]⟩
    obtain ⟨q0, hq0⟩ := Option.isSome_iff_exists.mp hsome
    have hq0eq : q0.2 = runMax 0 (tsStream d p responses 0) := by
      have hpred := List.find?_some hq0
      simpa using hpred
    have hq0mem := List.mem_of_find?_eq_some hq0
    obtain ⟨_, hlt, rows, hdec, hrow⟩ :=
      mem_tsStream d p responses 0 q0 hq0mem
    rw [Nat.sub_zero] at hlt hdec
    refine ⟨q0, hq0, hlt, hq0eq,
      mem_le_runMax 0 (tsStream d p responses 0), rows, hdec, ?_⟩
    rw [read_repair_ok d p repl gen responses _ hscan]
    have h1 : (if (0 : Int) < runMax 0 (tsStream d p responses 0)
        then ((List.find?
          (fun q => decide (q.2 = runMax 0 (tsStream d p responses 0)))
          (tsStream d p responses 0)).getD (0, 0)).1
        else 0) = q0.1 := by
      rw [if_pos hM, hq0, Option.getD_some]
    have h2 : (false || decide ((0 : Int) < runMax 0 (tsStream d p responses 0)))
        = true := by simp [hM]
    rw [h1, h2]
    simp only [repairPhase]
    rw [hdec]
    cases rows with
    | nil => simp
    | cons row rs => simp

def decodeJsonC4 : String → Option (List Row) := fun s =>
  if s = "respA" then
    some [[("a", "1"), ("_timestamp", "2024-01-01 00:00:01")]]
  else if s = "respB" then
    some [[("a", "2"), ("_timestamp", "not a date")]]
  else none

def parseTsC4 : String → Option Int := fun s =>
  if s = "2024-01-01 00:00:01" then some 1704067201
  else if s = "2024-01-02 00:00:02" then some 1704153602
  else none

def replicasOfC4 : Row → List String := fun _ => ["n1", "n2"]

def genInsertC4 : Row → String := fun row => (rowGet row "a").getD ""

/-- Counterexample to C4: a `_timestamp` that fails to parse does NOT leave
the client response intact — `read_repair` returns the string
"Error parsing timestamp" to the client (which is none of the replica
responses) and performs no background repair. -/
theorem claim_c4_counterexample :
    read_repair decodeJsonC4 parseTsC4 replicasOfC4 genInsertC4 ["respA", "respB"]
      = ⟨"Error parsing timestamp", []⟩
    ∧ "Error parsing timestamp" ∉ (["respA", "respB"] : List String) := by
  constructor
  · rfl
  · decide

def decodeJsonC4w : String → Option (List Row) := fun s =>
  if s = "respA" then
    some [[("a", "1"), ("_timestamp", "2024-01-01 00:00:01")]]
  else if s = "respC" then
    some [[("a", "2"), ("_timestamp", "2024-01-02 00:00:02")],
          [("a", "3"), ("_timestamp", "2024-01-01 00:00:01")]]
  else none

/-- Witness for the amended C4 at a concrete pair of responses: the second
response wins with the newer timestamp and only its first row is repaired. -/
theorem claim_c4_read_repair_witness :
    ∃ q, (tsStream decodeJsonC4w parseTsC4 ["respA", "respC"] 0).find?
          (fun x => decide (x.2
            = runMax 0 (tsStream decodeJsonC4w parseTsC4 ["respA", "respC"] 0)))
        = some q
      ∧ q.1 < (["respA", "respC"] : List String).length
      ∧ q.2 = runMax 0 (tsStream decodeJsonC4w parseTsC4 ["respA", "respC"] 0)
      ∧ (∀ x ∈ tsStream decodeJsonC4w parseTsC4 ["respA", "respC"] 0,
          x.2 ≤ runMax 0 (tsStream decodeJsonC4w parseTsC4 ["respA", "respC"] 0))
      ∧ ∃ rows, decodeJsonC4w ((["respA", "respC"] : List String).getD q.1 "")
          = some rows
        ∧ read_repair decodeJsonC4w parseTsC4 replicasOfC4 genInsertC4
            ["respA", "respC"]
          = ⟨(["respA", "respC"] : List String).getD q.1 "",
             rows.head?.elim []
               (fun row => (replicasOfC4 row).map
                 (fun nid => (nid, genInsertC4 row)))⟩ :=
  (claim_c4_read_repair decodeJsonC4w parseTsC4 replicasOfC4 genInsertC4
    ["respA", "respC"] (by decide) (by decide)).2 (by decide)


end AerolineasRusticas
